import Mathlib

/-!
A verification development for the FigmaFlow MCP design-to-code pipeline.

The Python sources under `mcp-server/src` are shallowly embedded here:

* JSON-like Python values (the dict trees the pipeline manipulates) become the
  inductive type `Json`; Python distinguishes `int` from `float`, so numbers
  carry a `PyNum` tag.  Python floats are modelled as exact rationals (the
  inputs of interest are exactly representable; `NaN`/`inf` are out of scope).
* Functions that can raise an exception return `Option`: `none` models an
  uncaught Python exception, `some` a normal return.
* All rational arithmetic used inside executable definitions is implemented on
  integer numerators/denominators (with `Rat.divInt` as the constructor) so
  that concrete runs reduce inside the kernel; bridge lemmas connect these to
  the ordinary `ℚ` operations.
-/

namespace FigmaFlow

/-- A Python number: `int` and `float` are distinct types in Python and the
filter treats them differently (`isinstance(value, int)`). -/
inductive PyNum where
  | int (n : ℤ)
  | float (q : ℚ)
deriving DecidableEq

/-- A Python value as manipulated by the pipeline: JSON scalars, lists and
(string-keyed, insertion-ordered) dicts.  `null` is Python `None`. -/
inductive Json where
  | null
  | bool (b : Bool)
  | num (n : PyNum)
  | str (s : String)
  | arr (elems : List Json)
  | obj (fields : List (String × Json))

mutual
def Json.beq : Json → Json → Bool
  | .null, .null => true
  | .bool a, .bool b => a == b
  | .num a, .num b => a == b
  | .str a, .str b => a == b
  | .arr a, .arr b => Json.beqList a b
  | .obj a, .obj b => Json.beqFields a b
  | _, _ => false
def Json.beqList : List Json → List Json → Bool
  | [], [] => true
  | a :: as, b :: bs => Json.beq a b && Json.beqList as bs
  | _, _ => false
def Json.beqFields : List (String × Json) → List (String × Json) → Bool
  | [], [] => true
  | (ka, va) :: as, (kb, vb) :: bs => ka == kb && Json.beq va vb && Json.beqFields as bs
  | _, _ => false
end

/-- Python `dict.get(key)` on an association list: the first binding wins
(Python dicts cannot bind a key twice, so on dict-shaped data this is exact). -/
def jlookup : List (String × Json) → String → Option Json
  | [], _ => none
  | (k, v) :: rest, key => if k = key then some v else jlookup rest key

/-- Python `dict.get(key, default)`. -/
def jget (fields : List (String × Json)) (key : String) (dflt : Json) : Json :=
  match jlookup fields key with
  | some v => v
  | none => dflt

/-- Python truthiness (`bool(v)`): `None`, `False`, zero, and empty
strings/lists/dicts are falsy; everything else is truthy. -/
def Json.truthy : Json → Bool
  | .null => false
  | .bool b => b
  | .num (.int n) => n != 0
  | .num (.float q) => q.num != 0
  | .str s => s != ""
  | .arr xs => !xs.isEmpty
  | .obj fs => !fs.isEmpty

/-- `type(v)` is `int` or `float` (with `bool` counting as `int`), as tested by
`isinstance(v, (int, float))`; used to decide whether a value is numeric. -/
def Json.asNum : Json → Option PyNum
  | .bool b => some (.int (if b then 1 else 0))
  | .num n => some n
  | _ => none

/-- Python numeric equality across `int`/`float`/`bool` (`1 == 1.0 == True`),
implemented on numerators/denominators so it evaluates in the kernel. -/
def PyNum.eqv : PyNum → PyNum → Bool
  | .int m, .int n => m == n
  | .int m, .float q => q.den == 1 && q.num == m
  | .float q, .int m => q.den == 1 && q.num == m
  | .float p, .float q => p == q

/-- Python `==` on the hashable scalars (`None`, `bool`, numbers, `str`):
numeric kinds compare by value, the rest by structure. -/
def scalarEq (a b : Json) : Bool :=
  match a.asNum, b.asNum with
  | some x, some y => x.eqv y
  | none, none => Json.beq a b
  | _, _ => false

/-- Whether a value may be put in a Python `set` (lists and dicts are
unhashable and raise `TypeError`). -/
def Json.hashable : Json → Bool
  | .arr _ => false
  | .obj _ => false
  | _ => true

/-- Round-half-to-even of the fraction `n / d` (for `d > 0`) to the nearest
integer, the rounding CPython's `round` applies (on the exact value of its
argument).  `/` and `%` on ℤ are Euclidean division, which for a positive
divisor coincides with Python's `//` and `%`. -/
def roundHalfEvenScaled (n d : ℤ) : ℤ :=
  let f := n / d
  let r := n % d
  if 2 * r < d then f
  else if d < 2 * r then f + 1
  else if f % 2 = 0 then f else f + 1

/-- Python `round(q, 1)` on the exact rational value `q` of a float. -/
def pyRound1 (q : ℚ) : ℚ :=
  Rat.divInt (roundHalfEvenScaled (10 * q.num) (q.den : ℤ)) 10

/-- `TokenFilter._round_number` (token_filter.py:286-307): integers pass
through; floats are rounded to 1 decimal with `round`, and an exact-integer
result is returned as `int` (no trailing `.0`). -/
def round_number : PyNum → PyNum
  | .int n => .int n
  | .float q =>
      let rounded := pyRound1 q
      if rounded.den = 1 then .int rounded.num else .float rounded

/-- `_round_number` applied to an arbitrary value: `bool` is an `int` subclass
and is returned unchanged; `round` on a non-number raises `TypeError`. -/
def round_number_j : Json → Option Json
  | .num n => some (.num (round_number n))
  | .bool b => some (.bool b)
  | _ => none

/-! ## TokenFilter (token_filter.py) -/

/-- The three filtering strategies (`FilterLevel`). -/
inductive FilterLevel where
  | aggressive
  | balanced
  | conservative
deriving DecidableEq

/-- `TokenFilter.CRITICAL_PROPERTIES`. -/
def CRITICAL_PROPERTIES : List String :=
  ["name", "type", "bounds", "text", "children", "visible",
   "width", "height", "x", "y"]

/-- `TokenFilter.IMPORTANT_PROPERTIES`. -/
def IMPORTANT_PROPERTIES : List String :=
  ["fills", "strokes", "backgroundColor", "characters",
   "fontSize", "fontWeight", "fontFamily", "textAlign",
   "cornerRadius", "opacity", "strokeWeight"]

/-- `TokenFilter.UNWANTED_PROPERTIES` (always removed). -/
def UNWANTED_PROPERTIES : List String :=
  ["id", "exportSettings", "blendMode", "layoutMode", "layoutGrow",
   "constraints", "transitionNodeID", "prototypeDevice", "reactions",
   "plugins", "sharedPluginData", "componentPropertyReferences",
   "boundVariables", "resolvedVariableModes", "inferredAutoLayout",
   "layoutPositioning", "itemSpacing", "paddingLeft", "paddingRight",
   "paddingTop", "paddingBottom", "primaryAxisSizingMode",
   "counterAxisSizingMode", "primaryAxisAlignItems", "counterAxisAlignItems",
   "layoutWrap", "layoutGrids", "effects", "isMask", "preserveRatio",
   "layoutAlign", "clipsContent"]

/-- `allowed_props` per strategy: `none` plays Python's `None`
(CONSERVATIVE keeps everything except the blocklist). -/
def allowedProps : FilterLevel → Option (List String)
  | .aggressive => some CRITICAL_PROPERTIES
  | .balanced => some (CRITICAL_PROPERTIES ++ IMPORTANT_PROPERTIES)
  | .conservative => none

/-- The skip test `allowed_props is not None and key not in allowed_props and
key != 'children'` from `filter_design_data`. -/
def skippedByLevel (lvl : FilterLevel) (key : String) : Bool :=
  match allowedProps lvl with
  | none => false
  | some props => !props.contains key && key != "children"

/-- `child.get('type')` inside `_are_children_repetitive`: raises
(`AttributeError`, outer `none`) unless the child is a dict; the inner
`Option` is the Python `None` default. -/
def getAttrType : Json → Option (Option Json)
  | .obj fs => some (jlookup fs "type")
  | _ => none

/-- Whether `v` can be a member of a Python `set` (`None` is hashable). -/
def optHashable : Option Json → Bool
  | none => true
  | some j => j.hashable

/-- Python `==` lifted to the `.get` result (`None == None` is `True`). -/
def optScalarEq : Option Json → Option Json → Bool
  | none, none => true
  | some a, some b => scalarEq a b
  | _, _ => false

/-- `v == 0` for the opacity test (Python `==`: `0`, `0.0` and `False` all
equal `0`). -/
def pyEqZero (v : Json) : Bool :=
  match v.asNum with
  | some n => n.eqv (.int 0)
  | none => false

/-- `TokenFilter._are_children_repetitive` (token_filter.py:156-174): under 3
children is not repetitive; otherwise collect each child's `type` tag and test
whether the set of tags is a singleton.  Building the set raises `TypeError`
when a tag is unhashable (a list or dict). -/
def are_children_repetitive (children : List Json) : Option Bool :=
  if children.length < 3 then some false
  else
    match children.mapM getAttrType with
    | none => none
    | some types =>
        if types.all optHashable then
          match types with
          | [] => some false
          | t :: ts => some (ts.all (fun u => optScalarEq t u))
        else none

/-- The synthetic marker record appended by repetition collapsing:
`'type': '_note', 'text': f'... and N similar items'`. -/
def noteRecord (n : ℕ) : Json :=
  .obj [("type", .str "_note"),
        ("text", .str ("... and " ++ toString n ++ " similar items"))]

/-- The simplified fill built inside `_filter_fills` (token_filter.py:199-221):
`type` with default `'SOLID'`; a `color` entry only when the *explicit* type
is `'SOLID'` and a color is present (a string passes through, a raw dict has
each channel rounded, anything else is kept as-is). -/
def simplifyFill (ff : List (String × Json)) : Option (List (String × Json)) :=
  let base := [("type", jget ff "type" (.str "SOLID"))]
  match jlookup ff "type", jlookup ff "color" with
  | some (.str t), some color =>
      if t = "SOLID" then
        match color with
        | .str s => some (base ++ [("color", .str s)])
        | .obj cf => do
            let r ← round_number_j (jget cf "r" (.num (.int 0)))
            let g ← round_number_j (jget cf "g" (.num (.int 0)))
            let b ← round_number_j (jget cf "b" (.num (.int 0)))
            let a ← round_number_j (jget cf "a" (.num (.float (Rat.divInt 1 1))))
            some (base ++ [("color", .obj [("r", r), ("g", g), ("b", b), ("a", a)])])
        | other => some (base ++ [("color", other)])
      else some base
  | _, _ => some base

/-- The loop body list of `_filter_fills`: drop fills that are invisible or
whose opacity equals 0 (default `1.0`), simplify the rest; iterating a
non-dict element raises. -/
def filterFillList : List Json → Option (List Json)
  | [] => some []
  | fill :: rest =>
      match fill with
      | .obj ff =>
          if (jget ff "visible" (.bool true)).truthy = false then filterFillList rest
          else if pyEqZero (jget ff "opacity" (.num (.float (Rat.divInt 1 1)))) then
            filterFillList rest
          else do
            let simplified ← simplifyFill ff
            let out ← filterFillList rest
            some (.obj simplified :: out)
      | _ => none

/-- `TokenFilter._filter_fills` (token_filter.py:176-226).  A falsy `fills`
value (`None`, `[]`, ...) is returned unchanged; a truthy non-list raises when
the loop touches its elements. -/
def filter_fills (fills : Json) : Option Json :=
  if fills.truthy = false then some fills
  else match fills with
    | .arr fs => (filterFillList fs).map Json.arr
    | _ => none

/-- The loop body list of `_filter_strokes` (token_filter.py:241-266): like
fills but with *no* opacity test. -/
def filterStrokeList : List Json → Option (List Json)
  | [] => some []
  | stroke :: rest =>
      match stroke with
      | .obj sf =>
          if (jget sf "visible" (.bool true)).truthy = false then filterStrokeList rest
          else do
            let simplified ← simplifyFill sf
            let out ← filterStrokeList rest
            some (.obj simplified :: out)
      | _ => none

/-- `TokenFilter._filter_strokes` (token_filter.py:228-268). -/
def filter_strokes (strokes : Json) : Option Json :=
  if strokes.truthy = false then some strokes
  else match strokes with
    | .arr ss => (filterStrokeList ss).map Json.arr
    | _ => none

/-- The dict comprehension of `_simplify_bounds`: keep only
`x`/`y`/`width`/`height`, each through `_round_number`. -/
def boundsFields : List (String × Json) → Option (List (String × Json))
  | [] => some []
  | (k, v) :: rest =>
      if k = "x" ∨ k = "y" ∨ k = "width" ∨ k = "height" then do
        let v' ← round_number_j v
        let out ← boundsFields rest
        some ((k, v') :: out)
      else boundsFields rest

/-- `TokenFilter._simplify_bounds` (token_filter.py:270-284); `.items()` on a
non-dict raises. -/
def simplify_bounds : Json → Option Json
  | .obj fields => (boundsFields fields).map Json.obj
  | _ => none

mutual
/-- `TokenFilter.filter_design_data` (token_filter.py:54-110): non-dicts pass
through; for dicts, each property is dropped (blocklist / strategy) or
transformed (children / fills / strokes / bounds / nested dict / number). -/
def filter_design_data (lvl : FilterLevel) : Json → ℕ → ℕ → Option Json
  | .obj fields, maxD, curD => (filterFields lvl fields maxD curD).map Json.obj
  | data, _, _ => some data

/-- The property loop of `filter_design_data`, in iteration order. -/
def filterFields (lvl : FilterLevel) :
    List (String × Json) → ℕ → ℕ → Option (List (String × Json))
  | [], _, _ => some []
  | (key, value) :: rest, maxD, curD =>
      if UNWANTED_PROPERTIES.contains key then filterFields lvl rest maxD curD
      else if skippedByLevel lvl key then filterFields lvl rest maxD curD
      else
        match
          (if key = "children" then filter_children lvl value maxD curD
           else if key = "fills" then filter_fills value
           else if key = "strokes" then filter_strokes value
           else if key = "bounds" then simplify_bounds value
           else match value with
             | .obj _ => filter_design_data lvl value maxD curD
             | .num n => some (.num (round_number n))
             | .bool b => some (.bool b)
             | v => some v)
        with
        | none => none
        | some v' =>
            match filterFields lvl rest maxD curD with
            | none => none
            | some out => some ((key, v') :: out)

/-- `TokenFilter._filter_children` (token_filter.py:112-154): at or past the
depth limit return `[]`; otherwise drop invisible children, recurse a level
deeper, and collapse a run of more than 10 repetitive children to its first 2
plus a `noteRecord`.  Iterating a non-list raises, except that an empty string
or empty dict iterates zero times. -/
def filter_children (lvl : FilterLevel) : Json → ℕ → ℕ → Option Json
  | children, maxD, curD =>
      if maxD ≤ curD then some (.arr [])
      else match children with
        | .arr cs =>
            match filterChildList lvl cs maxD curD with
            | none => none
            | some fc =>
                if 10 < fc.length then
                  match are_children_repetitive fc with
                  | none => none
                  | some true => some (.arr (fc.take 2 ++ [noteRecord (fc.length - 2)]))
                  | some false => some (.arr fc)
                else some (.arr fc)
        | .str s => if s = "" then some (.arr []) else none
        | .obj [] => some (.arr [])
        | _ => none

/-- The child loop of `_filter_children`: skip children whose `visible` is
falsy (default truthy), recurse at `current_depth + 1`; `.get` on a non-dict
child raises. -/
def filterChildList (lvl : FilterLevel) : List Json → ℕ → ℕ → Option (List Json)
  | [], _, _ => some []
  | child :: rest, maxD, curD =>
      match child with
      | .obj cf =>
          if (jget cf "visible" (.bool true)).truthy = false then
            filterChildList lvl rest maxD curD
          else
            match filter_design_data lvl child maxD (curD + 1) with
            | none => none
            | some fc =>
                match filterChildList lvl rest maxD curD with
                | none => none
                | some out => some (fc :: out)
      | _ => none
end

/-- The per-property transformation applied by the loop of
`filter_design_data` once a key has survived the blocklist and the
strategy allowlist (the dispatch inside `filterFields`, named so proofs can
speak about one step). -/
def transformValue (lvl : FilterLevel) (key : String) (value : Json)
    (maxD curD : ℕ) : Option Json :=
  if key = "children" then filter_children lvl value maxD curD
  else if key = "fills" then filter_fills value
  else if key = "strokes" then filter_strokes value
  else if key = "bounds" then simplify_bounds value
  else match value with
    | .obj fields => filter_design_data lvl (.obj fields) maxD curD
    | .num n => some (.num (round_number n))
    | .bool b => some (.bool b)
    | .null => some .null
    | .str s => some (.str s)
    | .arr xs => some (.arr xs)

/-! ## FigmaCache (cache.py)

The cache directory is modelled as an association list from file path to file
data.  A file's stored bytes are modelled by their parse result: `none` for
bytes that are not valid JSON, `some j` for bytes parsing to `j` (Python's
`json` round-trips every value of our `Json` type, so `set`'s serialization
is invisible at this level).  Timestamps are rationals (seconds). -/

/-- One cache file: parse result of its contents plus its modification time. -/
structure FileData where
  content : Option Json
  mtime : ℚ

/-- The cache directory: path ↦ file. -/
def FileSystem := List (String × FileData)

/-- File lookup by path. -/
def fsLookup : FileSystem → String → Option FileData
  | [], _ => none
  | (p, fd) :: rest, path => if p = path then some fd else fsLookup rest path

/-- `Path.unlink`: remove the file at `path`. -/
def fsErase (st : FileSystem) (path : String) : FileSystem :=
  st.filter (fun e => e.1 != path)

/-- `open(path, 'w')` + write: replace whatever was at `path`. -/
def fsWrite (st : FileSystem) (path : String) (fd : FileData) : FileSystem :=
  (path, fd) :: fsErase st path

/-- Strict `a < b` on ℚ by cross-multiplication (denominators are positive),
so the comparison evaluates in the kernel. -/
def qltb (a b : ℚ) : Bool := decide (a.num * (b.den : ℤ) < b.num * (a.den : ℤ))

/-- `a - b` on ℚ through `Rat.divInt`, kernel-evaluable. -/
def qsub (a b : ℚ) : ℚ :=
  Rat.divInt (a.num * (b.den : ℤ) - b.num * (a.den : ℤ)) ((a.den : ℤ) * (b.den : ℤ))

/-- `FigmaCache`: the configured TTL, as a duration in seconds
(`timedelta(hours=ttl_hours)`; the default is 24 hours = 86400 seconds). -/
structure FigmaCache where
  ttl : ℚ

/-- `FigmaCache.__init__`'s TTL: `timedelta(hours=ttl_hours)`. -/
def FigmaCache.ofHours (ttl_hours : ℤ) : FigmaCache :=
  ⟨Rat.divInt (3600 * ttl_hours) 1⟩

/-- `FigmaCache._get_cache_key`: md5-hex of `f"{file_key}:{node_id or 'full'}"`.
The digest is modelled by the key string itself: it is a fixed deterministic
injection on hash-collision-free inputs, and the claims below use only
determinism of the derivation. -/
def cache_key (file_key : String) (node_id : Option String) : String :=
  file_key ++ ":" ++ (match node_id with | some n => n | none => "full")

/-- `FigmaCache._get_cache_path`: `cache_dir / f"{cache_key}.json"`. -/
def cache_path (file_key : String) (node_id : Option String) : String :=
  cache_key file_key node_id ++ ".json"

/-- `datetime.now().isoformat()` stored under `cached_at`; the rendering is
opaque to every claim (the field is written, never read back). -/
def isoformat (t : ℚ) : String := toString t.num ++ "/" ++ toString t.den

/-- `FigmaCache.get` (cache.py:36-70) as a state transformer.  Returns
`none` for an uncaught exception; `some (result, st')` for a normal return
with the possibly changed directory.  Missing file → miss.  File older than
TTL → delete, miss.  Unparseable contents (`json.JSONDecodeError`) or a JSON
object without `'data'` (`KeyError`) → delete, miss.  A file parsing to a
non-object JSON value makes `cached['data']` raise `TypeError`, which the
`except` clause does not catch. -/
def FigmaCache.get (c : FigmaCache) (st : FileSystem) (now : ℚ)
    (file_key : String) (node_id : Option String) :
    Option (Option Json × FileSystem) :=
  let path := cache_path file_key node_id
  match fsLookup st path with
  | none => some (none, st)
  | some fd =>
      if qltb c.ttl (qsub now fd.mtime) then some (none, fsErase st path)
      else
        match fd.content with
        | none => some (none, fsErase st path)
        | some (.obj fields) =>
            match jlookup fields "data" with
            | some v => some (some v, st)
            | none => some (none, fsErase st path)
        | some _ => none

/-- `FigmaCache.set` (cache.py:72-92): write `{'data': data, 'cached_at': now}`
at the derived path; the new file's modification time is the write time.
(`json.dump` cannot fail on `Json` values, and I/O failures are outside the
state model, so the swallowed-exception branch is not reachable here.) -/
def FigmaCache.set (st : FileSystem) (now : ℚ) (file_key : String)
    (data : Json) (node_id : Option String) : FileSystem :=
  fsWrite st (cache_path file_key node_id)
    ⟨some (.obj [("data", data), ("cached_at", .str (isoformat now))]), now⟩

/-! ## DesignParser (parser.py) -/

/-- `ColorRGBA` (client.py:26-31): pydantic model with `a` defaulting to
`1.0`. -/
structure ColorRGBA where
  r : ℚ
  g : ℚ
  b : ℚ
  a : ℚ

/-- Python `int(q)` for a rational: truncation toward zero. -/
def pyInt (q : ℚ) : ℤ := q.num.tdiv (q.den : ℤ)

/-- `q * 255` through `Rat.divInt`, kernel-evaluable. -/
def qmul255 (q : ℚ) : ℚ := Rat.divInt (255 * q.num) (q.den : ℤ)

/-- An uppercase hex digit. -/
def hexDigitU (n : ℕ) : Char :=
  if n < 10 then Char.ofNat (48 + n) else Char.ofNat (65 + n - 10)

/-- Hex digits of `n`, most significant first (fuel keeps this structural). -/
def natHexAux : ℕ → ℕ → List Char
  | 0, _ => []
  | fuel + 1, n => if n < 16 then [hexDigitU n] else natHexAux fuel (n / 16) ++ [hexDigitU (n % 16)]

/-- Uppercase hex digits of `n` with no leading zeros (`'0'` for zero). -/
def natHexU (n : ℕ) : List Char := natHexAux (n + 1) n

/-- Python `f"{v:02X}"`: uppercase hex, zero-padded to overall width 2 (the
sign, when present, counts toward the width). -/
def format02X (v : ℤ) : String :=
  if v < 0 then
    String.mk ('-' :: List.replicate (1 - (natHexU v.natAbs).length) '0' ++ natHexU v.natAbs)
  else
    String.mk (List.replicate (2 - (natHexU v.toNat).length) '0' ++ natHexU v.toNat)

/-- `DesignParser._format_color` (parser.py:85-102): 8-bit channels by
`int(channel * 255)`, formatted `Color(0xAARRGGBB)`. -/
def format_color (c : ColorRGBA) : String :=
  let r := pyInt (qmul255 c.r)
  let g := pyInt (qmul255 c.g)
  let b := pyInt (qmul255 c.b)
  let a := pyInt (qmul255 c.a)
  "Color(" ++ ("0x" ++ format02X a ++ format02X r ++ format02X g ++ format02X b) ++ ")"

/-- A pydantic `float` field value: accepts a Python `float` or an `int`
(coerced); anything else fails validation. -/
def asFloatQ : Option Json → Option ℚ
  | some (.num (.int n)) => some (Rat.divInt n 1)
  | some (.num (.float q)) => some q
  | _ => none

/-- `ColorRGBA(**color)`: keyword expansion of a dict into the pydantic
model.  Requires a dict with numeric `r`, `g`, `b` (pydantic coerces `int` to
`float`); `a` defaults to `1.0`.  Non-numeric channels and non-dict arguments
raise (string-to-float coercion is not modelled; no claim exercises it). -/
def toColorRGBA : Json → Option ColorRGBA
  | .obj cf => do
      let r ← asFloatQ (jlookup cf "r")
      let g ← asFloatQ (jlookup cf "g")
      let b ← asFloatQ (jlookup cf "b")
      let a ← match jlookup cf "a" with
              | none => some (Rat.divInt 1 1)
              | some v => asFloatQ (some v)
      some ⟨r, g, b, a⟩
  | _ => none

/-- `DesignParser._parse_fills` (parser.py:104-128): keep visible fills; build
`{'type': fill.get('type', 'SOLID')}`; then the guard `fill["type"] == "SOLID"`
subscripts *without* a default, so a visible fill lacking `'type'` raises
`KeyError`; for SOLID fills with a color, attach the formatted color. -/
def parse_fills : List Json → Option (List Json)
  | [] => some []
  | fill :: rest =>
      match fill with
      | .obj ff =>
          if (jget ff "visible" (.bool true)).truthy then do
            let base := [("type", jget ff "type" (.str "SOLID"))]
            let t ← jlookup ff "type"
            let fd ←
              match t, jlookup ff "color" with
              | .str s, some color =>
                  if s = "SOLID" then do
                    let c ← toColorRGBA color
                    some (base ++ [("color", Json.str (format_color c))])
                  else some base
              | _, _ => some base
            let out ← parse_fills rest
            some (.obj fd :: out)
          else parse_fills rest
      | _ => none

/-- `DesignParser._parse_strokes` (parser.py:130-153): identical shape to
`_parse_fills`, including the defaultless `stroke["type"]` subscript. -/
def parse_strokes : List Json → Option (List Json)
  | [] => some []
  | stroke :: rest =>
      match stroke with
      | .obj sf =>
          if (jget sf "visible" (.bool true)).truthy then do
            let base := [("type", jget sf "type" (.str "SOLID"))]
            let t ← jlookup sf "type"
            let sd ←
              match t, jlookup sf "color" with
              | .str s, some color =>
                  if s = "SOLID" then do
                    let c ← toColorRGBA color
                    some (base ++ [("color", Json.str (format_color c))])
                  else some base
              | _, _ => some base
            let out ← parse_strokes rest
            some (.obj sd :: out)
          else parse_strokes rest
      | _ => none

/-! ## FigmaClient.parse_file_url (client.py:224-247) -/

/-- The regex class `[A-Za-z0-9]`. -/
def isWordAlnum (c : Char) : Bool :=
  ('A' ≤ c && c ≤ 'Z') || ('a' ≤ c && c ≤ 'z') || ('0' ≤ c && c ≤ '9')

/-- The regex class `[0-9]`. -/
def isDigitChar (c : Char) : Bool := '0' ≤ c && c ≤ '9'

/-- A maximal nonempty `[A-Za-z0-9]+` token at the head of the input. -/
def tokenAfter (cs : List Char) : Option (List Char) :=
  let t := cs.takeWhile isWordAlnum
  if t.isEmpty then none else some t

/-- A match of `/(?:file|design)/([A-Za-z0-9]+)` anchored at the head. -/
def matchFileKeyAt (cs : List Char) : Option (List Char) :=
  if "/file/".toList.isPrefixOf cs then tokenAfter (cs.drop 6)
  else if "/design/".toList.isPrefixOf cs then tokenAfter (cs.drop 8)
  else none

/-- `re.search` for the file-key pattern: leftmost anchored match. -/
def searchFileKey : List Char → Option (List Char)
  | [] => none
  | c :: cs =>
      match matchFileKeyAt (c :: cs) with
      | some t => some t
      | none => searchFileKey cs

/-- A match of `node-id=([0-9]+-[0-9]+)` anchored at the head, returning the
two (maximal) digit groups. -/
def matchNodeIdAt (cs : List Char) : Option (List Char × List Char) :=
  if "node-id=".toList.isPrefixOf cs then
    let rest := cs.drop 8
    let a := rest.takeWhile isDigitChar
    let rest2 := rest.drop a.length
    if a.isEmpty then none
    else if rest2.head? = some '-' then
      let b := (rest2.drop 1).takeWhile isDigitChar
      if b.isEmpty then none else some (a, b)
    else none
  else none

/-- `re.search` for the node-id pattern: leftmost anchored match. -/
def searchNodeId : List Char → Option (List Char × List Char)
  | [] => none
  | c :: cs =>
      match matchNodeIdAt (c :: cs) with
      | some ab => some ab
      | none => searchNodeId cs

/-- `FigmaClient.parse_file_url`: extract the file key after `/file/` or
`/design/`, and the node id from `node-id=<a>-<b>`, rewriting the separator
`-` to `:` (the matched group has exactly one hyphen, so `.replace` rewrites
exactly it). -/
def parse_file_url (url : String) : Option String × Option String :=
  let cs := url.toList
  ((searchFileKey cs).map fun t => String.mk t,
   (searchNodeId cs).map fun ab => String.mk (ab.1 ++ ':' :: ab.2))

/-! ## json.dumps(·, indent=2) (used by WidgetGenerator.generate)

Faithful for the values the pipeline serializes: ints in decimal, floats via
their shortest decimal form (our floats are the exact rationals of doubles
whose repr is positional; exponent notation for very large/small magnitudes
is outside the model), strings with `ensure_ascii` escaping, 2-space indented
containers. -/

/-- The digits after the decimal point of `rest / den` (`0 < rest < den`);
the fuel is exhausted only for denominators that are not 2^a·5^b, which do
not arise from doubles. -/
def fracDigits : ℕ → ℕ → ℕ → List Char
  | 0, _, _ => []
  | _, 0, _ => []
  | fuel + 1, rest, den =>
      let d := 10 * rest / den
      let rest2 := 10 * rest % den
      Char.ofNat (48 + d) :: fracDigits fuel rest2 den

/-- `repr` of a Python float holding the rational `q`: sign, integer part, a
dot, then the fractional digits (`".0"` when exact). -/
def pyFloatRepr (q : ℚ) : String :=
  let sign := if q.num < 0 then "-" else ""
  let n := q.num.natAbs
  let ipart := n / q.den
  let rest := n % q.den
  if rest = 0 then sign ++ Nat.repr ipart ++ ".0"
  else sign ++ Nat.repr ipart ++ "." ++ String.mk (fracDigits q.den rest q.den)

/-- Four lowercase hex digits (for `\uXXXX` escapes). -/
def hex4Lower (n : ℕ) : List Char :=
  let d := fun k => let m := n / 16 ^ k % 16
                    if m < 10 then Char.ofNat (48 + m) else Char.ofNat (97 + m - 10)
  [d 3, d 2, d 1, d 0]

/-- `json`'s `ensure_ascii` escaping of one character. -/
def escapeChar (c : Char) : List Char :=
  if c = '"' then ['\\', '"']
  else if c = '\\' then ['\\', '\\']
  else if c = '\n' then ['\\', 'n']
  else if c = '\r' then ['\\', 'r']
  else if c = '\t' then ['\\', 't']
  else if c = '\x08' then ['\\', 'b']
  else if c = '\x0c' then ['\\', 'f']
  else if c.toNat < 32 || 126 < c.toNat then
    if c.toNat < 65536 then '\\' :: 'u' :: hex4Lower c.toNat
    else
      let m := c.toNat - 65536
      ('\\' :: 'u' :: hex4Lower (55296 + m / 1024)) ++ ('\\' :: 'u' :: hex4Lower (56320 + m % 1024))
  else [c]

/-- A JSON string literal: quotes around the escaped characters. -/
def pyStrRepr (s : String) : String :=
  "\"" ++ String.mk (s.toList.flatMap escapeChar) ++ "\""

/-- `indent=2`: the indentation at nesting level `lvl`. -/
def dindent (lvl : ℕ) : String := String.mk (List.replicate (2 * lvl) ' ')

mutual
/-- `json.dumps(v, indent=2)` at nesting level `lvl`. -/
def dumpVal : ℕ → Json → String
  | _, .null => "null"
  | _, .bool true => "true"
  | _, .bool false => "false"
  | _, .num (.int n) => toString n
  | _, .num (.float q) => pyFloatRepr q
  | _, .str s => pyStrRepr s
  | lvl, .arr es =>
      match es with
      | [] => "[]"
      | _ :: _ => "[\n" ++ dumpItems (lvl + 1) es ++ "\n" ++ dindent lvl ++ "]"
  | lvl, .obj fs =>
      match fs with
      | [] => "\x7b\x7d"
      | _ :: _ => "\x7b\n" ++ dumpFields (lvl + 1) fs ++ "\n" ++ dindent lvl ++ "\x7d"

/-- Array items, comma-newline separated, each indented. -/
def dumpItems : ℕ → List Json → String
  | _, [] => ""
  | lvl, [x] => dindent lvl ++ dumpVal lvl x
  | lvl, x :: y :: ys => dindent lvl ++ dumpVal lvl x ++ ",\n" ++ dumpItems lvl (y :: ys)

/-- Object members `"key": value`, comma-newline separated, each indented. -/
def dumpFields : ℕ → List (String × Json) → String
  | _, [] => ""
  | lvl, [(k, v)] => dindent lvl ++ pyStrRepr k ++ ": " ++ dumpVal lvl v
  | lvl, (k, v) :: f :: fs =>
      dindent lvl ++ pyStrRepr k ++ ": " ++ dumpVal lvl v ++ ",\n" ++ dumpFields lvl (f :: fs)
end

/-- `json.dumps(data, indent=2)`. -/
def dumps (data : Json) : String := dumpVal 0 data

/-! ## WidgetGenerator.generate (widget.py:29-89), data-preparation slice

The prompt-assembly part of `generate`: filter, serialize, and escalate once
when the serialized JSON is over 10,000 characters.  The AI call and the
post-processing of its output are external to this spec.  The generator's
only relevant state is `self.token_filter.filter_level`, which the escalation
branch *mutates in place*. -/

/-- The generator state: `self.token_filter.filter_level`
(constructor default: BALANCED). -/
structure WidgetGenerator where
  filter_level : FilterLevel

/-- `WidgetGenerator.__init__` with the default `filter_level`. -/
def WidgetGenerator.default : WidgetGenerator := ⟨.balanced⟩

/-- The filtering/serialization slice of `WidgetGenerator.generate`
(widget.py:46-63): filter at the *current* level with `max_depth=4`,
serialize; if over 10,000 characters, set the level to AGGRESSIVE, re-filter
at `max_depth=3` and re-serialize once.  Returns the filtered record, the
serialized JSON embedded into the prompt, and the generator's state after the
call. -/
def generatePrep (g : WidgetGenerator) (design_data : Json) :
    Option (Json × String × WidgetGenerator) :=
  match filter_design_data g.filter_level design_data 4 0 with
  | none => none
  | some filtered =>
      if 10000 < (dumps filtered).length then
        match filter_design_data .aggressive design_data 3 0 with
        | none => none
        | some filtered2 => some (filtered2, dumps filtered2, ⟨.aggressive⟩)
      else some (filtered, dumps filtered, g)

/-! ## Specification-side definitions

Definitions in this section follow the *spec's words* (spec.md), to be
compared with the source-derived definitions above. -/

/-- Spec §4.4/§8 rounding rule, as worded: "round half away from zero to N=1
decimal".  `⌊n/d + 1/2⌋` is computed as `(2n+d) fdiv (2d)`; a negative value
is rounded through its absolute value. -/
def roundHalfAwayScaled (n d : ℤ) : ℤ :=
  if 0 ≤ n then (2 * n + d).fdiv (2 * d)
  else -((2 * (-n) + d).fdiv (2 * d))

/-- Round half away from zero to 1 decimal place (the spec's stated rule). -/
def specRoundHalfAway1 (q : ℚ) : ℚ :=
  Rat.divInt (roundHalfAwayScaled (10 * q.num) (q.den : ℤ)) 10

/-- Spec §4.3: one 8-bit channel as exactly two uppercase hex digits. -/
def specByte (n : ℤ) : String :=
  String.mk [hexDigitU (n.toNat / 16 % 16), hexDigitU (n.toNat % 16)]

/-- Spec §4.3 color formatting: `floor(channel * 255)` per channel, channel
order A, R, G, B, two uppercase hex digits each, wrapped `Color(0x...)`. -/
def specColorFormat (c : ColorRGBA) : String :=
  "Color(0x" ++ specByte ⌊c.a * 255⌋ ++ specByte ⌊c.r * 255⌋ ++
    specByte ⌊c.g * 255⌋ ++ specByte ⌊c.b * 255⌋ ++ ")"

/-- Claim C5's keep test for a fill entry: visible (default) and not fully
transparent. -/
def specKeepFill (ff : List (String × Json)) : Bool :=
  (jget ff "visible" (.bool true)).truthy &&
    !pyEqZero (jget ff "opacity" (.num (.float (Rat.divInt 1 1))))

/-- Claim C5 (amended) keep test for a stroke entry: visible only. -/
def specKeepStroke (sf : List (String × Json)) : Bool :=
  (jget sf "visible" (.bool true)).truthy

/-- Channel rounding for the spec-side color reduction; total, with an
identity fallback on the non-numeric channels the theorem's hypotheses
exclude. -/
def roundChannelTotal (v : Json) : Json :=
  match round_number_j v with
  | some w => w
  | none => v

/-- Spec-side color reduction: a pre-formatted string passes through
unchanged; a raw RGBA mapping has each channel rounded to 1 decimal place;
anything else passes through. -/
def specColorOut : Json → Json
  | .str s => .str s
  | .obj cf =>
      .obj [("r", roundChannelTotal (jget cf "r" (.num (.int 0)))),
            ("g", roundChannelTotal (jget cf "g" (.num (.int 0)))),
            ("b", roundChannelTotal (jget cf "b" (.num (.int 0)))),
            ("a", roundChannelTotal (jget cf "a" (.num (.float (Rat.divInt 1 1)))))]
  | other => other

/-- Spec-side reduction of a kept paint entry to only a `type` field and, for
entries whose explicit type tag is `SOLID` and which carry a color, a `color`
field. -/
def specPaintOut (ff : List (String × Json)) : Json :=
  match jlookup ff "type", jlookup ff "color" with
  | some (.str t), some c =>
      if t = "SOLID" then .obj [("type", .str "SOLID"), ("color", specColorOut c)]
      else .obj [("type", jget ff "type" (.str "SOLID"))]
  | _, _ => .obj [("type", jget ff "type" (.str "SOLID"))]

/-- The claim-level fills transformation: drop invisible or fully transparent
entries, reduce the rest (non-dict entries are outside the claim's scope). -/
def specFilterFills : List Json → List Json
  | [] => []
  | e :: rest =>
      match e with
      | .obj ff =>
          if specKeepFill ff then specPaintOut ff :: specFilterFills rest
          else specFilterFills rest
      | other => other :: specFilterFills rest

/-- The claim-level (amended) strokes transformation: drop only invisible
entries, reduce the rest. -/
def specFilterStrokes : List Json → List Json
  | [] => []
  | e :: rest =>
      match e with
      | .obj sf =>
          if specKeepStroke sf then specPaintOut sf :: specFilterStrokes rest
          else specFilterStrokes rest
      | other => other :: specFilterStrokes rest

/-- Well-formedness of one paint entry for the C5 refinement: a dict whose
channels (when a raw SOLID color mapping is present) are numbers or booleans,
so that `_round_number` does not raise. -/
def wfPaintEntry : Json → Bool
  | .obj ff =>
      match jlookup ff "type", jlookup ff "color" with
      | some (.str "SOLID"), some (.obj cf) =>
          chanOk (jlookup cf "r") && chanOk (jlookup cf "g") &&
            chanOk (jlookup cf "b") && chanOk (jlookup cf "a")
      | _, _ => true
  | _ => false
where
  chanOk : Option Json → Bool
    | none => true
    | some (.num _) => true
    | some (.bool _) => true
    | some _ => false

/-- The escalation contract of claim C8, as the spec words it: filter with
BALANCED at depth 4; iff the serialized JSON exceeds 10,000 characters,
re-filter once with AGGRESSIVE at depth 3. -/
def assembleSpec (design_data : Json) : Option (Json × String) :=
  match filter_design_data .balanced design_data 4 0 with
  | none => none
  | some f1 =>
      if 10000 < (dumps f1).length then
        match filter_design_data .aggressive design_data 3 0 with
        | none => none
        | some f2 => some (f2, dumps f2)
      else some (f1, dumps f1)

/-- An occurrence of `/file/<alnum>` or `/design/<alnum>` at the head of a
suffix (what claim C9 calls "containing a `/file/<tok>` or `/design/<tok>`
path segment"). -/
def fileKeyHeadAt (suf : List Char) : Prop :=
  ∃ c post, (suf = "/file/".toList ++ c :: post ∨ suf = "/design/".toList ++ c :: post) ∧
    isWordAlnum c = true

/-- An occurrence of `node-id=<digits>-<digits>` at the head of a suffix. -/
def nodeIdHeadAt (suf : List Char) : Prop :=
  ∃ a b post, suf = "node-id=".toList ++ (a ++ '-' :: (b ++ post)) ∧
    a ≠ [] ∧ b ≠ [] ∧ (∀ ch ∈ a, isDigitChar ch = true) ∧ (∀ ch ∈ b, isDigitChar ch = true)

/-- The rational value of a Python number. -/
def pyNumVal : PyNum → ℚ
  | .int n => (n : ℚ)
  | .float q => q

/-- Whether a Python number is an `int` (its JSON rendering has no `.0`). -/
def isIntShape : PyNum → Bool
  | .int _ => true
  | .float _ => false

/-- A 10,001-character string; its record serializes to more than 10,000
characters, crossing `generate`'s escalation threshold. -/
def bigString : String := String.mk (List.replicate 10001 'a')

/-- Whether a value is a boolean. -/
def Json.isBoolVal : Json → Bool
  | .bool _ => true
  | _ => false

/-- The per-binding check of `visOkFields`: a binding under the key
`visible` must hold a boolean. -/
def visBoolOk (k : String) (v : Json) : Bool :=
  if k = "visible" then v.isBoolVal else true

mutual
/-- Every value stored under a `visible` key, anywhere in the tree, is a
boolean (the data model's type for `visible`); the discipline under which
claim C7's amended fixed-point statement holds. -/
def visOk : Json → Bool
  | .obj fs => visOkFields fs
  | .arr xs => visOkList xs
  | _ => true

/-- `visOk` over a dict's fields. -/
def visOkFields : List (String × Json) → Bool
  | [] => true
  | (k, v) :: rest =>
      (if k = "visible" then match v with | .bool _ => true | _ => false else true) &&
        visOk v && visOkFields rest

/-- `visOk` over a list's elements. -/
def visOkList : List Json → Bool
  | [] => true
  | x :: xs => visOk x && visOkList xs
end

/-- A child record that re-filtering under AGGRESSIVE leaves untouched: a
dict that passes the visibility test and is a fixed point of
`filter_design_data` one level deeper. -/
def StableChild (maxD curD : ℕ) (c : Json) : Prop :=
  (∃ cf, c = .obj cf ∧ (jget cf "visible" (.bool true)).truthy = true) ∧
    filter_design_data .aggressive c maxD (curD + 1) = some c ∧ visOk c = true

/-! ## Bridge lemmas for the kernel-evaluable arithmetic -/

theorem qltb_iff (a b : ℚ) : qltb a b = true ↔ a < b := by
  rw [qltb, Rat.lt_def, decide_eq_true_iff]

theorem qsub_eq (a b : ℚ) : qsub a b = a - b := by
  have ha : ((a.den : ℚ)) ≠ 0 := by exact_mod_cast a.den_nz
  have hb : ((b.den : ℚ)) ≠ 0 := by exact_mod_cast b.den_nz
  rw [qsub, Rat.divInt_eq_div]
  push_cast
  conv_rhs => rw [← Rat.num_div_den a, ← Rat.num_div_den b, div_sub_div _ _ ha hb]
  congr 1
  ring

/-! ## Claim C10: `_parse_fills` requires `type` on visible entries -/

/-- C10: `LayoutNormalizer`'s fill parsing is total only when every visible
paint entry carries a `type` key: a visible fill (or stroke) lacking `type`
makes `fill["type"]` raise a lookup error instead of defaulting to SOLID,
while the same entry with an explicit `type` parses fine. -/
theorem parse_fills_requires_type :
    parse_fills [Json.obj [("color", Json.obj [("r", .num (.int 1)), ("g", .num (.int 0)),
        ("b", .num (.int 0))])]] = none ∧
    parse_strokes [Json.obj [("color", Json.obj [("r", .num (.int 1)), ("g", .num (.int 0)),
        ("b", .num (.int 0))])]] = none ∧
    parse_fills [Json.obj [("type", .str "SOLID"),
        ("color", Json.obj [("r", .num (.int 1)), ("g", .num (.int 0)), ("b", .num (.int 0))])]]
      = some [Json.obj [("type", .str "SOLID"), ("color", .str "Color(0xFFFF0000)")]] :=
  ⟨rfl, rfl, rfl⟩

/-! ## Cache lemmas, claims C4 and C3 -/

theorem fsLookup_fsErase (st : FileSystem) (p : String) :
    fsLookup (fsErase st p) p = none := by
  induction st with
  | nil => rfl
  | cons e rest ih =>
      by_cases h : e.1 = p
      · simpa [fsErase, List.filter_cons, h] using ih
      · simpa [fsErase, List.filter_cons, h, fsLookup] using ih

theorem fsLookup_fsWrite (st : FileSystem) (p : String) (fd : FileData) :
    fsLookup (fsWrite st p fd) p = some fd := by
  simp [fsWrite, fsLookup]

/-- C4: `set(k, v)` immediately followed by `get(k)` (same clock reading,
nonnegative TTL) returns exactly `v` and leaves the written file in place. -/
theorem cache_set_get_roundtrip (c : FigmaCache) (st : FileSystem) (now : ℚ)
    (fk : String) (nid : Option String) (v : Json) (h : 0 ≤ c.ttl) :
    c.get (FigmaCache.set st now fk v nid) now fk nid
      = some (some v, FigmaCache.set st now fk v nid) := by
  have hfresh : qltb c.ttl (qsub now now) = false := by
    rw [← Bool.not_eq_true, qltb_iff, qsub_eq, sub_self, not_lt]
    exact h
  rw [FigmaCache.get, FigmaCache.set, fsLookup_fsWrite]
  dsimp only
  rw [hfresh]
  rfl

/-- C4 witness: a concrete round trip through the default 24-hour cache. -/
theorem cache_set_get_roundtrip_witness :
    0 ≤ (FigmaCache.ofHours 24).ttl ∧
      (FigmaCache.ofHours 24).get
          (FigmaCache.set [] (Rat.divInt 0 1) "KEY" (.str "payload") (some "1:2"))
          (Rat.divInt 0 1) "KEY" (some "1:2")
        = some (some (.str "payload"),
            FigmaCache.set [] (Rat.divInt 0 1) "KEY" (.str "payload") (some "1:2")) := by
  have h : 0 ≤ (FigmaCache.ofHours 24).ttl := by
    show (0 : ℚ) ≤ Rat.divInt (3600 * 24) 1
    rw [Rat.divInt_eq_div]
    norm_num
  exact ⟨h, cache_set_get_roundtrip _ _ _ _ _ _ h⟩

/-- C3 (amended): when the backing file exists and is either expired, or
unparseable, or parses to a JSON *object* without a `'data'` field, `get`
returns a miss and deletes the file, raising nothing.  (A file parsing to a
non-object JSON value instead raises `TypeError`; see the counterexample.) -/
theorem cache_get_expired_or_corrupt (c : FigmaCache) (st : FileSystem) (now : ℚ)
    (fk : String) (nid : Option String) (fd : FileData)
    (hfound : fsLookup st (cache_path fk nid) = some fd)
    (hbad : c.ttl < now - fd.mtime ∨ fd.content = none ∨
      (∃ fields, fd.content = some (.obj fields) ∧ jlookup fields "data" = none)) :
    c.get st now fk nid = some (none, fsErase st (cache_path fk nid)) ∧
      fsLookup (fsErase st (cache_path fk nid)) (cache_path fk nid) = none := by
  refine ⟨?_, fsLookup_fsErase st _⟩
  rw [FigmaCache.get, hfound]
  dsimp only
  rcases hbad with hexp | hnone | ⟨fields, hobj, hdata⟩
  · have hq : qltb c.ttl (qsub now fd.mtime) = true := by
      rw [qltb_iff, qsub_eq]; exact hexp
    simp [hq]
  · by_cases hq : qltb c.ttl (qsub now fd.mtime) = true
    · simp [hq]
    · rw [Bool.not_eq_true] at hq
      simp [hq, hnone]
  · by_cases hq : qltb c.ttl (qsub now fd.mtime) = true
    · simp [hq]
    · rw [Bool.not_eq_true] at hq
      simp [hq, hobj, hdata]

/-- C3 witness: a 24-hour cache observing an expired file and a corrupt
(unparseable) file, each deleted and reported as a miss. -/
theorem cache_get_expired_or_corrupt_witness :
    ((FigmaCache.ofHours 24).get [("K:full.json", ⟨some (.obj [("data", .str "v")]), Rat.divInt 0 1⟩)]
        (Rat.divInt 100000 1) "K" none
      = some (none, []) ∧
      fsLookup (fsErase [("K:full.json", ⟨some (.obj [("data", .str "v")]), Rat.divInt 0 1⟩)]
          "K:full.json") "K:full.json" = none) ∧
    ((FigmaCache.ofHours 24).get [("K:full.json", ⟨none, Rat.divInt 0 1⟩)]
        (Rat.divInt 0 1) "K" none
      = some (none, []) ∧
      fsLookup (fsErase [("K:full.json", ⟨none, Rat.divInt 0 1⟩)] "K:full.json") "K:full.json"
        = none) := by
  constructor
  · have h := cache_get_expired_or_corrupt (FigmaCache.ofHours 24)
      [("K:full.json", ⟨some (.obj [("data", .str "v")]), Rat.divInt 0 1⟩)]
      (Rat.divInt 100000 1) "K" none ⟨some (.obj [("data", .str "v")]), Rat.divInt 0 1⟩
      rfl (Or.inl (by
        show (FigmaCache.ofHours 24).ttl < Rat.divInt 100000 1 - Rat.divInt 0 1
        show Rat.divInt (3600 * 24) 1 < _
        rw [Rat.divInt_eq_div, Rat.divInt_eq_div, Rat.divInt_eq_div]
        norm_num))
    simpa [cache_path, cache_key, fsErase] using h
  · have h := cache_get_expired_or_corrupt (FigmaCache.ofHours 24)
      [("K:full.json", ⟨none, Rat.divInt 0 1⟩)]
      (Rat.divInt 0 1) "K" none ⟨none, Rat.divInt 0 1⟩
      rfl (Or.inr (Or.inl rfl))
    simpa [cache_path, cache_key, fsErase] using h

/-- C3 counterexample: a fresh backing file whose contents parse to the JSON
array `[]` — a wrapper that certainly "lacks the `'data'` field" — makes
`get` raise `TypeError` (modelled `none`) instead of returning a miss with
the file deleted, refuting the claim as stated. -/
theorem cache_get_counterexample :
    (FigmaCache.ofHours 24).get [("K:full.json", ⟨some (.arr []), Rat.divInt 0 1⟩)]
        (Rat.divInt 0 1) "K" none = none ∧
    ∀ st2, (FigmaCache.ofHours 24).get [("K:full.json", ⟨some (.arr []), Rat.divInt 0 1⟩)]
        (Rat.divInt 0 1) "K" none ≠ some (none, st2) := by
  refine ⟨rfl, ?_⟩
  intro st2
  rw [show (FigmaCache.ofHours 24).get [("K:full.json", ⟨some (.arr []), Rat.divInt 0 1⟩)]
      (Rat.divInt 0 1) "K" none = none from rfl]
  simp

/-! ## Claim C2: the numeric rounding rule -/

theorem roundHalfEvenScaled_key (n d : ℤ) (hd : 0 < d) :
    (-d < 2 * (roundHalfEvenScaled n d * d - n) ∧ 2 * (roundHalfEvenScaled n d * d - n) < d) ∨
    ((2 * (roundHalfEvenScaled n d * d - n) = d ∨ 2 * (roundHalfEvenScaled n d * d - n) = -d) ∧
      2 ∣ roundHalfEvenScaled n d) := by
  simp only [roundHalfEvenScaled]
  have h1 : d * (n / d) + n % d = n := Int.ediv_add_emod n d
  have h2 : 0 ≤ n % d := Int.emod_nonneg n (by omega)
  have h3 : n % d < d := Int.emod_lt_of_pos n hd
  generalize hf : n / d = f at h1 ⊢
  generalize hr : n % d = r at h1 h2 h3 ⊢
  generalize hX : d * f = X at h1
  have e1 : f * d = X := by rw [← hX]; ring
  have e2 : (f + 1) * d = X + d := by rw [← hX]; ring
  split_ifs with c1 c2 c3
  · rw [e1]; omega
  · rw [e2]; omega
  · rw [e1]; omega
  · rw [e2]; omega

/-- The rounded value as an explicit fraction. -/
theorem pyRound1_eq_div (q : ℚ) :
    pyRound1 q = ((roundHalfEvenScaled (10 * q.num) (q.den : ℤ) : ℤ) : ℚ) / 10 := by
  rw [pyRound1, Rat.divInt_eq_div]
  norm_num

theorem den_pos_int (q : ℚ) : (0 : ℤ) < (q.den : ℤ) := by
  exact_mod_cast q.pos

/-- C2 (amended): `_round_number` keeps integers; a float is rounded to the
nearest multiple of 1/10 with ties to even (Python's `round`, not
half-away-from-zero), the result collapsing to an `int` exactly when that
multiple is an integer; 127.58394 rounds to 127.6 and 250.0 to the int 250. -/
theorem round_number_characterization :
    (∀ n : ℤ, round_number (.int n) = .int n) ∧
    (∀ q : ℚ, ∃ k : ℤ,
        pyNumVal (round_number (.float q)) = (k : ℚ) / 10 ∧
        (|(k : ℚ) / 10 - q| < 1 / 20 ∨ (|(k : ℚ) / 10 - q| = 1 / 20 ∧ 2 ∣ k)) ∧
        isIntShape (round_number (.float q)) = decide ((10 : ℤ) ∣ k)) ∧
    round_number (.float (Rat.divInt 12758394 100000)) = .float (Rat.divInt 638 5) ∧
    round_number (.float (Rat.divInt 250 1)) = .int 250 := by
  refine ⟨fun n => rfl, fun q => ?_, rfl, rfl⟩
  refine ⟨roundHalfEvenScaled (10 * q.num) (q.den : ℤ), ?_, ?_, ?_⟩
  · -- the value of the result is k/10 in both the int and the float branch
    rw [round_number]
    by_cases hden : (pyRound1 q).den = 1
    · simp only [hden, if_true]
      rw [pyNumVal, ← pyRound1_eq_div]
      exact (Rat.den_eq_one_iff _).mp hden
    · simp only [hden, if_false]
      rw [pyNumVal, ← pyRound1_eq_div]
  · -- the rounded value is within a half-step, ties to even
    set k := roundHalfEvenScaled (10 * q.num) (q.den : ℤ) with hk
    have hd : (0 : ℤ) < (q.den : ℤ) := den_pos_int q
    have hdQ : ((q.den : ℕ) : ℚ) ≠ 0 := by positivity
    have hid : (k : ℚ) / 10 - q
        = ((k * (q.den : ℤ) - 10 * q.num : ℤ) : ℚ) / (((10 : ℤ) * (q.den : ℤ) : ℤ) : ℚ) := by
      conv_lhs => rw [← Rat.num_div_den q]
      push_cast
      field_simp
    have hposQ : (0 : ℚ) < (((10 : ℤ) * (q.den : ℤ) : ℤ) : ℚ) := by
      have : (0 : ℤ) < (10 : ℤ) * (q.den : ℤ) := by positivity
      exact_mod_cast this
    have key := roundHalfEvenScaled_key (10 * q.num) (q.den : ℤ) hd
    rw [← hk] at key
    rcases key with ⟨hlo, hhi⟩ | ⟨heq, hev⟩
    · left
      rw [hid, abs_div, abs_of_pos hposQ, div_lt_div_iff₀ hposQ (by norm_num : (0 : ℚ) < 20)]
      have habs : |2 * (k * (q.den : ℤ) - 10 * q.num)| < (q.den : ℤ) := abs_lt.mpr ⟨hlo, hhi⟩
      rw [abs_mul, abs_two] at habs
      have hint : |k * (q.den : ℤ) - 10 * q.num| * 20 < 1 * ((10 : ℤ) * (q.den : ℤ)) := by
        linarith
      rw [← Int.cast_abs]
      exact_mod_cast hint
    · right
      refine ⟨?_, hev⟩
      rw [hid, abs_div, abs_of_pos hposQ, div_eq_div_iff (ne_of_gt hposQ)
        (by norm_num : (20 : ℚ) ≠ 0)]
      have habs : |2 * (k * (q.den : ℤ) - 10 * q.num)| = (q.den : ℤ) := by
        rcases heq with h | h
        · rw [h]; exact abs_of_pos (by omega)
        · rw [h, abs_neg]; exact abs_of_pos (by omega)
      rw [abs_mul, abs_two] at habs
      have hint : |k * (q.den : ℤ) - 10 * q.num| * 20 = 1 * ((10 : ℤ) * (q.den : ℤ)) := by
        linarith
      rw [← Int.cast_abs]
      exact_mod_cast hint
  · -- int shape exactly when k is a multiple of 10
    set k := roundHalfEvenScaled (10 * q.num) (q.den : ℤ) with hk
    have hrepr : pyRound1 q = Rat.divInt k 10 := rfl
    have hiff : (Rat.divInt k 10).den = 1 ↔ (10 : ℤ) ∣ k := by
      constructor
      · intro h
        have h1 : ((Rat.divInt k 10).num : ℚ) = Rat.divInt k 10 := (Rat.den_eq_one_iff _).mp h
        have h2 : ((Rat.divInt k 10).num : ℚ) = (k : ℚ) / 10 := by
          rw [h1, Rat.divInt_eq_div]; norm_num
        have h3 : ((Rat.divInt k 10).num * 10 : ℤ) = k := by
          have h4 : (((Rat.divInt k 10).num : ℤ) : ℚ) * 10 = (k : ℚ) := by
            rw [h2]
            field_simp
          exact_mod_cast h4
        exact ⟨(Rat.divInt k 10).num, by omega⟩
      · rintro ⟨m, hm⟩
        rw [hm]
        have hred : Rat.divInt (10 * m) 10 = Rat.divInt m 1 := by
          rw [show (10 : ℤ) * m = m * 10 by ring, show (10 : ℤ) = 1 * 10 by norm_num]
          exact Rat.divInt_mul_right (by norm_num)
        rw [hred, show Rat.divInt m 1 = ((m : ℤ) : ℚ) by rw [Rat.divInt_eq_div]; norm_num]
        exact Rat.den_intCast m
    rw [round_number]
    by_cases hden : (pyRound1 q).den = 1
    · simp only [hden, if_true]
      have : (10 : ℤ) ∣ k := hiff.mp (by rw [← hrepr]; exact hden)
      simp [isIntShape, this]
    · simp only [hden, if_false]
      have : ¬ (10 : ℤ) ∣ k := fun hdvd => hden (by rw [hrepr]; exact hiff.mpr hdvd)
      simp [isIntShape, this]

/-- C2 counterexample: Python rounds 0.25 to 0.2 (ties to even), while the
claimed round-half-away-from-zero rule yields 0.3. -/
theorem round_number_not_half_away :
    round_number (.float (Rat.divInt 1 4)) = .float (Rat.divInt 1 5) ∧
    specRoundHalfAway1 (Rat.divInt 1 4) = Rat.divInt 3 10 ∧
    Rat.divInt 1 5 ≠ Rat.divInt 3 10 :=
  ⟨rfl, rfl, by decide⟩

/-! ## Claim C5: fills/strokes reduction -/

theorem roundChannelTotal_of_some (v w : Json) (h : round_number_j v = some w) :
    round_number_j v = some (roundChannelTotal v) := by
  rw [roundChannelTotal, h]

theorem chan_round (cf : List (String × Json)) (key : String) (dflt : Json)
    (hwf : wfPaintEntry.chanOk (jlookup cf key) = true)
    (hdflt : ∃ w, round_number_j dflt = some w) :
    round_number_j (jget cf key dflt) = some (roundChannelTotal (jget cf key dflt)) := by
  rw [jget]
  cases h : jlookup cf key with
  | none =>
      obtain ⟨w, hw⟩ := hdflt
      exact roundChannelTotal_of_some _ _ hw
  | some v =>
      rw [h] at hwf
      cases v with
      | num n => exact roundChannelTotal_of_some _ _ rfl
      | bool b => exact roundChannelTotal_of_some _ _ rfl
      | null => simp [wfPaintEntry.chanOk] at hwf
      | str s => simp [wfPaintEntry.chanOk] at hwf
      | arr xs => simp [wfPaintEntry.chanOk] at hwf
      | obj fs => simp [wfPaintEntry.chanOk] at hwf

theorem simplifyFill_spec (ff : List (String × Json)) (h : wfPaintEntry (.obj ff) = true) :
    (simplifyFill ff).map Json.obj = some (specPaintOut ff) := by
  rw [wfPaintEntry] at h
  rw [simplifyFill, specPaintOut]
  cases hty : jlookup ff "type" with
  | none => rfl
  | some t =>
      rw [hty] at h
      cases t with
      | str s =>
          cases hco : jlookup ff "color" with
          | none => rfl
          | some color =>
              rw [hco] at h
              dsimp only
              by_cases hs : s = "SOLID"
              · rw [if_pos hs, if_pos hs]
                cases color with
                | str cs => simp [jget, hty, hs, specColorOut]
                | obj cf =>
                    subst hs
                    simp only [Bool.and_eq_true] at h
                    obtain ⟨⟨⟨hr, hg⟩, hb⟩, ha⟩ := h
                    dsimp only
                    rw [chan_round cf "r" (.num (.int 0)) hr ⟨.num (.int 0), rfl⟩,
                      chan_round cf "g" (.num (.int 0)) hg ⟨.num (.int 0), rfl⟩,
                      chan_round cf "b" (.num (.int 0)) hb ⟨.num (.int 0), rfl⟩,
                      chan_round cf "a" (.num (.float (Rat.divInt 1 1))) ha ⟨.num (.int 1), rfl⟩]
                    simp [jget, hty, specColorOut]
                | null => simp [jget, hty, hs, specColorOut]
                | bool b => simp [jget, hty, hs, specColorOut]
                | num n => simp [jget, hty, hs, specColorOut]
                | arr xs => simp [jget, hty, hs, specColorOut]
              · rw [if_neg hs, if_neg hs]
                rfl
      | null => rfl
      | bool b => rfl
      | num n => rfl
      | arr xs => rfl
      | obj fs2 => rfl

theorem filterFillList_spec (fs : List Json) (h : ∀ e ∈ fs, wfPaintEntry e = true) :
    filterFillList fs = some (specFilterFills fs) := by
  induction fs with
  | nil => rfl
  | cons e rest ih =>
      have he := h e (List.mem_cons_self e rest)
      have hrest := ih (fun x hx => h x (List.mem_cons_of_mem e hx))
      cases e with
      | obj ff =>
          rw [filterFillList, specFilterFills]
          by_cases hv : (jget ff "visible" (.bool true)).truthy = false
          · have hkeep : specKeepFill ff = false := by rw [specKeepFill, hv]; rfl
            rw [if_pos hv, hrest, hkeep]
            simp
          · rw [if_neg hv]
            rw [Bool.not_eq_false] at hv
            by_cases ho : pyEqZero (jget ff "opacity" (.num (.float (Rat.divInt 1 1)))) = true
            · have hkeep : specKeepFill ff = false := by rw [specKeepFill, hv, ho]; rfl
              rw [if_pos ho, hrest, hkeep]
              simp
            · rw [Bool.not_eq_true] at ho
              have hkeep : specKeepFill ff = true := by rw [specKeepFill, hv, ho]; rfl
              rw [if_neg (by rw [ho]; exact Bool.false_ne_true), hkeep]
              obtain ⟨sf, hsf⟩ : ∃ sf, simplifyFill ff = some sf := by
                have hs2 := simplifyFill_spec ff he
                rcases hso : simplifyFill ff with _ | sf
                · rw [hso] at hs2
                  exact Option.noConfusion hs2
                · exact ⟨sf, rfl⟩
              have hspec := simplifyFill_spec ff he
              rw [hsf] at hspec
              simp only [Option.map_some'] at hspec
              rw [Option.some.injEq] at hspec
              rw [hsf, hrest]
              show some (Json.obj sf :: specFilterFills rest)
                  = some (specPaintOut ff :: specFilterFills rest)
              rw [hspec]
      | null => exact absurd he (by simp [wfPaintEntry])
      | bool b => exact absurd he (by simp [wfPaintEntry])
      | num n => exact absurd he (by simp [wfPaintEntry])
      | str s => exact absurd he (by simp [wfPaintEntry])
      | arr xs => exact absurd he (by simp [wfPaintEntry])

theorem filterStrokeList_spec (ss : List Json) (h : ∀ e ∈ ss, wfPaintEntry e = true) :
    filterStrokeList ss = some (specFilterStrokes ss) := by
  induction ss with
  | nil => rfl
  | cons e rest ih =>
      have he := h e (List.mem_cons_self e rest)
      have hrest := ih (fun x hx => h x (List.mem_cons_of_mem e hx))
      cases e with
      | obj sf =>
          rw [filterStrokeList, specFilterStrokes]
          by_cases hv : (jget sf "visible" (.bool true)).truthy = false
          · have hkeep : specKeepStroke sf = false := by rw [specKeepStroke, hv]
            rw [if_pos hv, hrest, hkeep]
            simp
          · rw [if_neg hv]
            rw [Bool.not_eq_false] at hv
            have hkeep : specKeepStroke sf = true := by rw [specKeepStroke, hv]
            rw [hkeep]
            obtain ⟨pf, hpf⟩ : ∃ pf, simplifyFill sf = some pf := by
              have hs2 := simplifyFill_spec sf he
              rcases hso : simplifyFill sf with _ | pf
              · rw [hso] at hs2
                exact Option.noConfusion hs2
              · exact ⟨pf, rfl⟩
            have hspec := simplifyFill_spec sf he
            rw [hpf] at hspec
            simp only [Option.map_some'] at hspec
            rw [Option.some.injEq] at hspec
            rw [hpf, hrest]
            show some (Json.obj pf :: specFilterStrokes rest)
                = some (specPaintOut sf :: specFilterStrokes rest)
            rw [hspec]
      | null => exact absurd he (by simp [wfPaintEntry])
      | bool b => exact absurd he (by simp [wfPaintEntry])
      | num n => exact absurd he (by simp [wfPaintEntry])
      | str s => exact absurd he (by simp [wfPaintEntry])
      | arr xs => exact absurd he (by simp [wfPaintEntry])

/-- C5 (amended): on well-formed paint lists, `_filter_fills` drops entries
that are invisible *or* fully transparent and `_filter_strokes` drops *only*
invisible entries (it never tests opacity); every kept entry is reduced to
`type` plus, for explicitly SOLID entries with a color, a `color` that passes
strings through and rounds raw RGBA channels. -/
theorem filter_fills_strokes_spec (fs : List Json) (hwf : ∀ e ∈ fs, wfPaintEntry e = true) :
    filter_fills (.arr fs) = some (.arr (specFilterFills fs)) ∧
    filter_strokes (.arr fs) = some (.arr (specFilterStrokes fs)) := by
  constructor
  · cases fs with
    | nil => rfl
    | cons e rest =>
        rw [filter_fills]
        have : (Json.arr (e :: rest)).truthy = true := by simp [Json.truthy]
        rw [this]
        simp only [Bool.true_eq_false, if_false]
        rw [filterFillList_spec _ hwf]
        rfl
  · cases fs with
    | nil => rfl
    | cons e rest =>
        rw [filter_strokes]
        have : (Json.arr (e :: rest)).truthy = true := by simp [Json.truthy]
        rw [this]
        simp only [Bool.true_eq_false, if_false]
        rw [filterStrokeList_spec _ hwf]
        rfl

/-- C5 witness: a list with one invisible entry, one fully transparent entry
and one raw-color SOLID entry; fills drop the first two, strokes keep the
transparent one. -/
theorem filter_fills_strokes_spec_witness :
    filter_fills (.arr [Json.obj [("visible", .bool false)],
        Json.obj [("type", .str "SOLID"), ("opacity", .num (.int 0))],
        Json.obj [("type", .str "SOLID"),
          ("color", Json.obj [("r", .num (.int 1)), ("g", .num (.int 0)), ("b", .num (.int 0))])]])
      = some (.arr [Json.obj [("type", .str "SOLID"),
          ("color", Json.obj [("r", .num (.int 1)), ("g", .num (.int 0)), ("b", .num (.int 0)),
            ("a", .num (.int 1))])]]) ∧
    filter_strokes (.arr [Json.obj [("visible", .bool false)],
        Json.obj [("type", .str "SOLID"), ("opacity", .num (.int 0))],
        Json.obj [("type", .str "SOLID"),
          ("color", Json.obj [("r", .num (.int 1)), ("g", .num (.int 0)), ("b", .num (.int 0))])]])
      = some (.arr [Json.obj [("type", .str "SOLID")],
          Json.obj [("type", .str "SOLID"),
            ("color", Json.obj [("r", .num (.int 1)), ("g", .num (.int 0)), ("b", .num (.int 0)),
              ("a", .num (.int 1))])]]) := by
  have h := filter_fills_strokes_spec
    [Json.obj [("visible", .bool false)],
     Json.obj [("type", .str "SOLID"), ("opacity", .num (.int 0))],
     Json.obj [("type", .str "SOLID"),
       ("color", Json.obj [("r", .num (.int 1)), ("g", .num (.int 0)), ("b", .num (.int 0))])]]
    (by decide)
  exact ⟨h.1, h.2⟩

/-- C5 counterexample: a visible stroke with opacity 0 is *kept* by
`_filter_strokes` (the same entry is dropped by `_filter_fills`), refuting
the claim that both lists drop fully transparent entries. -/
theorem filter_strokes_keeps_zero_opacity :
    filter_strokes (.arr [Json.obj [("type", .str "SOLID"), ("opacity", .num (.int 0))]])
      = some (.arr [Json.obj [("type", .str "SOLID")]]) ∧
    filter_fills (.arr [Json.obj [("type", .str "SOLID"), ("opacity", .num (.int 0))]])
      = some (.arr []) ∧
    Json.arr [Json.obj [("type", Json.str "SOLID")]] ≠ Json.arr [] :=
  ⟨rfl, rfl, by simp⟩

/-! ## Claim C6: canonical color formatting -/

theorem qmul255_eq (q : ℚ) : qmul255 q = 255 * q := by
  rw [qmul255, Rat.divInt_eq_div]
  push_cast
  rw [mul_div_assoc, Rat.num_div_den]

theorem pyInt_eq_floor (p : ℚ) (hp : 0 ≤ p) : pyInt p = ⌊p⌋ := by
  rw [pyInt, Rat.floor_def]
  exact Int.tdiv_eq_ediv (Rat.num_nonneg.mpr hp) (by positivity)

theorem natHexU_two_digits (n : ℕ) (h : n < 256) :
    List.replicate (2 - (natHexU n).length) '0' ++ natHexU n
      = [hexDigitU (n / 16 % 16), hexDigitU (n % 16)] := by
  by_cases hsmall : n < 16
  · rw [natHexU, natHexAux, if_pos hsmall]
    have h16 : n / 16 = 0 := Nat.div_eq_of_lt hsmall
    have hmod : n % 16 = n := Nat.mod_eq_of_lt hsmall
    simp [h16, hmod, hexDigitU]
  · have hn1 : 1 ≤ n := by omega
    obtain ⟨m, rfl⟩ : ∃ m, n = m + 1 := ⟨n - 1, by omega⟩
    rw [natHexU, natHexAux, if_neg hsmall]
    have hq : (m + 1) / 16 < 16 := by omega
    rw [natHexAux, if_pos hq]
    have hqm : (m + 1) / 16 % 16 = (m + 1) / 16 := Nat.mod_eq_of_lt hq
    simp [hqm]

theorem format02X_eq_specByte (v : ℤ) (h0 : 0 ≤ v) (h255 : v ≤ 255) :
    format02X v = specByte v := by
  rw [format02X, if_neg (by omega), specByte]
  have : v.toNat < 256 := by omega
  rw [natHexU_two_digits v.toNat this]

/-- C6: for channels in `[0,1]`, `_format_color` truncates each channel with
`floor(channel * 255)` and prints `Color(0xAARRGGBB)` with A,R,G,B order,
two uppercase zero-padded hex digits per channel; in particular the four
primary examples. -/
theorem format_color_spec :
    (∀ c : ColorRGBA, 0 ≤ c.r → c.r ≤ 1 → 0 ≤ c.g → c.g ≤ 1 → 0 ≤ c.b → c.b ≤ 1 →
      0 ≤ c.a → c.a ≤ 1 → format_color c = specColorFormat c) ∧
    format_color ⟨1, 0, 0, 1⟩ = "Color(0xFFFF0000)" ∧
    format_color ⟨0, 1, 0, 1⟩ = "Color(0xFF00FF00)" ∧
    format_color ⟨0, 0, 1, 1⟩ = "Color(0xFF0000FF)" ∧
    format_color ⟨1, 1, 1, 1⟩ = "Color(0xFFFFFFFF)" := by
  have main : ∀ c : ColorRGBA, 0 ≤ c.r → c.r ≤ 1 → 0 ≤ c.g → c.g ≤ 1 → 0 ≤ c.b → c.b ≤ 1 →
      0 ≤ c.a → c.a ≤ 1 → format_color c = specColorFormat c := by
    intro c hr0 hr1 hg0 hg1 hb0 hb1 ha0 ha1
    have chan : ∀ q : ℚ, 0 ≤ q → q ≤ 1 →
        format02X (pyInt (qmul255 q)) = specByte ⌊q * 255⌋ := by
      intro q h0 h1
      have hmul : (0 : ℚ) ≤ 255 * q := by positivity
      have hfl : pyInt (qmul255 q) = ⌊255 * q⌋ := by
        rw [qmul255_eq, pyInt_eq_floor _ hmul]
      have hflo0 : 0 ≤ ⌊255 * q⌋ := Int.floor_nonneg.mpr hmul
      have hflo255 : ⌊255 * q⌋ ≤ 255 := by
        have : (255 : ℚ) * q ≤ 255 := by nlinarith
        calc ⌊255 * q⌋ ≤ ⌊(255 : ℚ)⌋ := Int.floor_le_floor this
          _ = 255 := by norm_num
      rw [hfl, mul_comm q 255]
      exact format02X_eq_specByte _ hflo0 hflo255
    rw [format_color, specColorFormat,
      chan c.r hr0 hr1, chan c.g hg0 hg1, chan c.b hb0 hb1, chan c.a ha0 ha1]
    simp only [← String.append_assoc]
    rw [show "Color(" ++ "0x" = "Color(0x" from rfl]
  refine ⟨main, ?_, ?_, ?_, ?_⟩
  all_goals
    rw [main _ (by norm_num) (by norm_num) (by norm_num) (by norm_num) (by norm_num)
      (by norm_num) (by norm_num) (by norm_num)]
  · rw [specColorFormat]
    norm_num
    rfl
  · rw [specColorFormat]
    norm_num
    rfl
  · rw [specColorFormat]
    norm_num
    rfl
  · rw [specColorFormat]
    norm_num
    rfl

/-- C6 witness: the opaque-red channel tuple, with all bounds discharged. -/
theorem format_color_spec_witness :
    format_color ⟨1, 0, 0, 1⟩ = specColorFormat ⟨1, 0, 0, 1⟩ :=
  format_color_spec.1 ⟨1, 0, 0, 1⟩ (by norm_num) (by norm_num) (by norm_num) (by norm_num)
    (by norm_num) (by norm_num) (by norm_num) (by norm_num)

/-! ## Claim C1: repetition collapsing -/

theorem optScalarEq_str (a b : String) :
    optScalarEq (some (.str a)) (some (.str b)) = true ↔ a = b := by
  simp [optScalarEq, scalarEq, Json.asNum, Json.beq]

theorem mapM_getAttrType_const (l : List Json) (t : String)
    (h : ∀ c ∈ l, getAttrType c = some (some (.str t))) :
    l.mapM getAttrType = some (l.map fun _ => some (Json.str t)) := by
  induction l with
  | nil => rfl
  | cons c rest ih =>
      have hc := h c (List.mem_cons_self c rest)
      have hrest := ih (fun x hx => h x (List.mem_cons_of_mem c hx))
      rw [List.mapM_cons, hc, hrest]
      rfl

theorem mapM_getAttrType_str (l : List Json)
    (h : ∀ c ∈ l, ∃ s, getAttrType c = some (some (.str s))) :
    ∃ types, l.mapM getAttrType = some types ∧ types.all optHashable = true ∧
      List.Forall₂ (fun c u => getAttrType c = some u) l types := by
  induction l with
  | nil => exact ⟨[], rfl, rfl, List.Forall₂.nil⟩
  | cons c rest ih =>
      obtain ⟨s, hs⟩ := h c (List.mem_cons_self c rest)
      obtain ⟨types, hty, hhash, hrel⟩ := ih (fun x hx => h x (List.mem_cons_of_mem c hx))
      refine ⟨some (.str s) :: types, ?_, ?_, List.Forall₂.cons hs hrel⟩
      · rw [List.mapM_cons, hs, hty]
        rfl
      · simp only [List.all_cons, hhash, Bool.and_true]
        rfl

theorem forall₂_mem_left {R : Json → Option Json → Prop} :
    ∀ {l : List Json} {l2 : List (Option Json)}, List.Forall₂ R l l2 →
      ∀ c ∈ l, ∃ u ∈ l2, R c u := by
  intro l l2 hrel
  induction hrel with
  | nil => intro c hc; exact absurd hc (List.not_mem_nil c)
  | cons hR _ ih =>
      intro c hc
      rcases List.mem_cons.mp hc with rfl | hc2
      · exact ⟨_, List.mem_cons_self _ _, hR⟩
      · obtain ⟨u, hu, hRu⟩ := ih c hc2
        exact ⟨u, List.mem_cons_of_mem _ hu, hRu⟩

/-- C1 (amended): with the depth not yet exhausted and the child loop
producing `fc`, a run of more than 10 children all tagged with one `type`
string collapses to its first 2 plus the `'_note'` marker whose text is
`f"... and {len - 2} similar items"` (no "more"); a run of 10 or fewer, or
one with two differing string tags (all tags being strings), is returned
whole. -/
theorem filter_children_collapsing (lvl : FilterLevel) (cs : List Json)
    (maxD curD : ℕ) (fc : List Json) (t : String)
    (hdepth : curD < maxD)
    (hlist : filterChildList lvl cs maxD curD = some fc) :
    (10 < fc.length → (∀ c ∈ fc, getAttrType c = some (some (.str t))) →
      filter_children lvl (.arr cs) maxD curD
        = some (.arr (fc.take 2 ++ [noteRecord (fc.length - 2)]))) ∧
    (fc.length ≤ 10 → filter_children lvl (.arr cs) maxD curD = some (.arr fc)) ∧
    ((∀ c ∈ fc, ∃ s, getAttrType c = some (some (.str s))) →
      (∃ c1 ∈ fc, ∃ c2 ∈ fc, ∃ s1 s2, getAttrType c1 = some (some (.str s1)) ∧
        getAttrType c2 = some (some (.str s2)) ∧ s1 ≠ s2) →
      filter_children lvl (.arr cs) maxD curD = some (.arr fc)) := by
  have hnle : ¬ maxD ≤ curD := by omega
  refine ⟨?_, ?_, ?_⟩
  · intro hlen htags
    rw [filter_children, if_neg hnle]
    rw [hlist]
    have hrep : are_children_repetitive fc = some true := by
      rw [are_children_repetitive, if_neg (by omega),
        mapM_getAttrType_const fc t htags]
      cases fc with
      | nil => simp at hlen
      | cons c rest =>
          have hall : ((c :: rest).map fun _ => some (Json.str t)).all optHashable = true := by
            rw [List.all_eq_true]
            intro u hu
            obtain ⟨x, _, rfl⟩ := List.mem_map.mp hu
            rfl
          simp only [List.map_cons] at hall ⊢
          rw [if_pos hall]
          rw [Option.some.injEq, List.all_eq_true]
          intro u hu
          obtain ⟨x, _, rfl⟩ := List.mem_map.mp hu
          exact (optScalarEq_str t t).mpr rfl
    dsimp only
    rw [if_pos hlen, hrep]
  · intro hlen
    rw [filter_children, if_neg hnle]
    rw [hlist]
    dsimp only
    rw [if_neg (by omega)]
  · intro hstr hmixed
    by_cases hlen : 10 < fc.length
    · rw [filter_children, if_neg hnle]
      rw [hlist]
      obtain ⟨types, hty, hhash, hrel⟩ := mapM_getAttrType_str fc hstr
      have hrep : are_children_repetitive fc = some false := by
        rw [are_children_repetitive, if_neg (by omega), hty]
        dsimp only
        rw [if_pos hhash]
        obtain ⟨c1, hc1mem, c2, hc2mem, s1, s2, hc1, hc2, hne⟩ := hmixed
        cases hrel with
        | nil => simp at hlen
        | @cons c0 u0 rest us h0 hrest =>
            rw [Option.some.injEq]
            obtain ⟨s0, hs0⟩ := hstr c0 (List.mem_cons_self _ _)
            have hu0 : u0 = some (.str s0) := by
              rw [h0] at hs0
              exact Option.some.inj hs0
            by_contra hcon
            rw [Bool.not_eq_false, List.all_eq_true] at hcon
            have htag_all : ∀ c ∈ (c0 :: rest), ∀ s,
                getAttrType c = some (some (.str s)) → s = s0 := by
              intro c hc s hs
              rcases List.mem_cons.mp hc with rfl | hc2
              · have := hs0.symm.trans hs
                rw [Option.some.injEq, Option.some.injEq] at this
                exact (Json.str.inj this).symm
              · obtain ⟨u, humem, hu⟩ := forall₂_mem_left hrest c hc2
                have hu' : u = some (.str s) := by
                  rw [hu] at hs
                  exact Option.some.inj hs
                have := hcon u humem
                rw [hu0, hu'] at this
                exact ((optScalarEq_str s0 s).mp this).symm
            have e1 : s1 = s0 := htag_all c1 hc1mem s1 hc1
            have e2 : s2 = s0 := htag_all c2 hc2mem s2 hc2
            exact hne (e1.trans e2.symm)
      dsimp only
      rw [if_pos hlen, hrep]
    · push_neg at hlen
      rw [filter_children, if_neg hnle]
      rw [hlist]
      dsimp only
      rw [if_neg (by omega)]

/-- C1 witness: 11 identically-tagged children collapse to 2 plus the note. -/
theorem filter_children_collapsing_witness :
    filterChildList .balanced (List.replicate 11 (Json.obj [("type", Json.str "T")])) 2 0
      = some (List.replicate 11 (Json.obj [("type", Json.str "T")])) ∧
    filter_children .balanced (.arr (List.replicate 11 (Json.obj [("type", Json.str "T")]))) 2 0
      = some (.arr ((List.replicate 11 (Json.obj [("type", Json.str "T")])).take 2
          ++ [noteRecord 9])) := by
  have h1 : filterChildList .balanced (List.replicate 11 (Json.obj [("type", Json.str "T")])) 2 0
      = some (List.replicate 11 (Json.obj [("type", Json.str "T")])) := rfl
  refine ⟨h1, ?_⟩
  have h := (filter_children_collapsing .balanced _ 2 0 _ "T" (by omega) h1).1
    (by simp)
    (fun c hc => by rw [List.eq_of_mem_replicate hc]; rfl)
  simpa using h

/-- C1 counterexample: the marker's text is `"... and 9 similar items"`, not
the claimed `"... and 9 more similar items"`. -/
theorem filter_children_note_text :
    filter_children .balanced (.arr (List.replicate 11 (Json.obj [("type", Json.str "Item")]))) 2 0
      = some (.arr [Json.obj [("type", Json.str "Item")], Json.obj [("type", Json.str "Item")],
          Json.obj [("type", Json.str "_note"),
            ("text", Json.str "... and 9 similar items")]]) ∧
    "... and 9 similar items" ≠ "... and 9 more similar items" :=
  ⟨rfl, by decide⟩

/-! ## Claim C8: prompt-assembly escalation -/

theorem flatMap_escapeChar_replicate_a (n : ℕ) :
    (List.replicate n 'a').flatMap escapeChar = List.replicate n 'a' := by
  induction n with
  | zero => rfl
  | succ m ih =>
      simp [List.replicate_succ, List.flatMap_cons, ih, show escapeChar 'a' = ['a'] from rfl]

theorem dumps_big_long : 10000 < (dumps (Json.obj [("name", Json.str bigString)])).length := by
  have hd : dumps (Json.obj [("name", Json.str bigString)])
      = "\x7b\n" ++ (dindent 1 ++ pyStrRepr "name" ++ ": " ++ pyStrRepr bigString)
          ++ "\n" ++ dindent 0 ++ "\x7d" := rfl
  have hrepr : (pyStrRepr bigString).length = 10003 := by
    have h1 : pyStrRepr bigString
        = "\"" ++ String.mk ((List.replicate 10001 'a').flatMap escapeChar) ++ "\"" := rfl
    rw [h1, flatMap_escapeChar_replicate_a, String.length_append, String.length_append]
    rw [show ("\"" : String).length = 1 from rfl,
      show (String.mk (List.replicate 10001 'a')).length
        = (List.replicate 10001 'a').length from rfl,
      List.length_replicate]
  rw [hd]
  simp only [String.length_append, hrepr]
  rw [show ("\x7b\n" : String).length = 2 from rfl, show (dindent 1).length = 2 from rfl,
    show (pyStrRepr "name").length = 6 from rfl, show (": " : String).length = 2 from rfl,
    show ("\n" : String).length = 1 from rfl, show (dindent 0).length = 0 from rfl,
    show ("\x7d" : String).length = 1 from rfl]
  norm_num

/-- C8 (amended): while the generator's filter level is still BALANCED, one
`generate` call filters BALANCED at depth 4 and escalates (once) to
AGGRESSIVE at depth 3 iff the first serialization exceeds 10,000 characters —
and the escalation *permanently* switches the generator's level to
AGGRESSIVE, so the BALANCED first pass is not restored for later calls. -/
theorem generatePrep_spec (g : WidgetGenerator) (d : Json)
    (h : g.filter_level = .balanced) :
    (generatePrep g d).map (fun x => (x.1, x.2.1)) = assembleSpec d ∧
    (∀ f s g2, generatePrep g d = some (f, s, g2) →
      (g2.filter_level = .aggressive ↔
        ∃ f1, filter_design_data .balanced d 4 0 = some f1 ∧ 10000 < (dumps f1).length)) := by
  rw [generatePrep, assembleSpec, h]
  cases hf1 : filter_design_data .balanced d 4 0 with
  | none => exact ⟨rfl, by intro f s g2 hcon; exact Option.noConfusion hcon⟩
  | some f1 =>
      dsimp only
      by_cases hlen : 10000 < (dumps f1).length
      · rw [if_pos hlen, if_pos hlen]
        cases hf2 : filter_design_data .aggressive d 3 0 with
        | none => exact ⟨rfl, by intro f s g2 hcon; exact Option.noConfusion hcon⟩
        | some f2 =>
            refine ⟨rfl, ?_⟩
            intro f s g2 hout
            rw [Option.some.injEq, Prod.mk.injEq, Prod.mk.injEq] at hout
            obtain ⟨-, -, hg2⟩ := hout
            constructor
            · intro _
              exact ⟨f1, rfl, hlen⟩
            · intro _
              rw [← hg2]
      · rw [if_neg hlen, if_neg hlen]
        refine ⟨rfl, ?_⟩
        intro f s g2 hout
        rw [Option.some.injEq, Prod.mk.injEq, Prod.mk.injEq] at hout
        obtain ⟨-, -, hg2⟩ := hout
        constructor
        · intro hagg
          rw [← hg2, h] at hagg
          exact absurd hagg (by simp)
        · rintro ⟨f1', hf1', hlen'⟩
          rw [Option.some.inj hf1'] at hlen
          exact absurd hlen' hlen

/-- C8 witness: a small record on a fresh generator — no escalation, level
stays BALANCED. -/
theorem generatePrep_spec_witness :
    ((generatePrep WidgetGenerator.default
        (Json.obj [("fills", Json.arr []), ("name", Json.str "x")])).map
      (fun x => (x.1, x.2.1))
        = assembleSpec (Json.obj [("fills", Json.arr []), ("name", Json.str "x")])) ∧
    (∀ f s g2, generatePrep WidgetGenerator.default
        (Json.obj [("fills", Json.arr []), ("name", Json.str "x")]) = some (f, s, g2) →
      (g2.filter_level = .aggressive ↔
        ∃ f1, filter_design_data .balanced
            (Json.obj [("fills", Json.arr []), ("name", Json.str "x")]) 4 0 = some f1 ∧
          10000 < (dumps f1).length)) :=
  generatePrep_spec WidgetGenerator.default _ rfl

/-- C8 counterexample: an invocation that escalates leaves the generator on
AGGRESSIVE, so the *next* invocation (still "on a generator constructed with
the default strategy") does not first filter with BALANCED: its output drops
`fills`, which the claimed BALANCED-first contract would keep. -/
theorem generatePrep_mutation_counterexample :
    generatePrep WidgetGenerator.default (Json.obj [("name", Json.str bigString)])
      = some (Json.obj [("name", Json.str bigString)],
          dumps (Json.obj [("name", Json.str bigString)]), ⟨.aggressive⟩) ∧
    generatePrep ⟨.aggressive⟩ (Json.obj [("fills", Json.arr []), ("name", Json.str "x")])
      = some (Json.obj [("name", Json.str "x")],
          dumps (Json.obj [("name", Json.str "x")]), ⟨.aggressive⟩) ∧
    (assembleSpec (Json.obj [("fills", Json.arr []), ("name", Json.str "x")])).map Prod.fst
      = some (Json.obj [("fills", Json.arr []), ("name", Json.str "x")]) ∧
    Json.obj [("name", Json.str "x")]
      ≠ Json.obj [("fills", Json.arr []), ("name", Json.str "x")] := by
  refine ⟨?_, rfl, rfl, by simp⟩
  rw [generatePrep]
  rw [show filter_design_data WidgetGenerator.default.filter_level
      (Json.obj [("name", Json.str bigString)]) 4 0
      = some (Json.obj [("name", Json.str bigString)]) from rfl]
  dsimp only
  rw [if_pos dumps_big_long]
  rw [show filter_design_data .aggressive (Json.obj [("name", Json.str bigString)]) 3 0
      = some (Json.obj [("name", Json.str bigString)]) from rfl]

/-! ### C9: `parse_file_url` — regex search soundness and completeness -/

theorem takeWhile_append_of (p : Char → Bool) (t u : List Char)
    (ht : ∀ c ∈ t, p c = true) (hu : ∀ d, u.head? = some d → p d = false) :
    (t ++ u).takeWhile p = t := by
  induction t with
  | nil =>
      rw [List.nil_append]
      cases u with
      | nil => rfl
      | cons d u' =>
          have hd : p d = false := hu d rfl
          rw [List.takeWhile_cons, if_neg (by rw [hd]; exact Bool.false_ne_true)]
  | cons c t' ih =>
      rw [List.cons_append, List.takeWhile_cons, if_pos (ht c (List.mem_cons_self c _)),
        ih (fun x hx => ht x (List.mem_cons_of_mem c hx))]

theorem prefix_append_drop {l₁ l : List Char} (h : l₁ <+: l) :
    l₁ ++ l.drop l₁.length = l := by
  obtain ⟨s, hs⟩ := h
  subst hs
  rw [List.drop_left]

theorem takeWhile_ne_nil_head (p : Char → Bool) (l : List Char) (h : l.takeWhile p ≠ []) :
    ∃ c l', l = c :: l' ∧ p c = true := by
  cases l with
  | nil => exact absurd rfl h
  | cons c l' =>
      refine ⟨c, l', rfl, ?_⟩
      by_contra hc
      rw [List.takeWhile_cons, if_neg hc] at h
      exact h rfl

theorem matchFileKeyAt_some_of (suf : List Char) (hf : fileKeyHeadAt suf) :
    ∃ t, matchFileKeyAt suf = some t := by
  obtain ⟨c, post, h1 | h1, hc⟩ := hf <;> subst h1
  · refine ⟨c :: post.takeWhile isWordAlnum, ?_⟩
    rw [matchFileKeyAt, if_pos (List.isPrefixOf_iff_prefix.mpr ⟨_, rfl⟩),
      List.drop_left' (show ("/file/".toList).length = 6 from rfl), tokenAfter]
    rw [List.takeWhile_cons, if_pos hc, if_neg (by simp)]
  · have hnp : "/file/".toList.isPrefixOf ("/design/".toList ++ c :: post) = false := rfl
    refine ⟨c :: post.takeWhile isWordAlnum, ?_⟩
    rw [matchFileKeyAt, if_neg (by rw [hnp]; exact Bool.false_ne_true),
      if_pos (List.isPrefixOf_iff_prefix.mpr ⟨_, rfl⟩), List.drop_left' (show ("/design/".toList).length = 8 from rfl), tokenAfter]
    rw [List.takeWhile_cons, if_pos hc, if_neg (by simp)]

theorem fileKeyHeadAt_of_match (suf t : List Char) (h : matchFileKeyAt suf = some t) :
    fileKeyHeadAt suf := by
  rw [matchFileKeyAt] at h
  split_ifs at h with h1 h2
  · obtain ⟨rest, hrest⟩ := List.isPrefixOf_iff_prefix.mp h1
    subst hrest
    rw [List.drop_left' (show ("/file/".toList).length = 6 from rfl), tokenAfter] at h
    split_ifs at h with he
    have hne : rest.takeWhile isWordAlnum ≠ [] := fun h0 => he (by rw [h0]; rfl)
    obtain ⟨c, rest', hc1, hc2⟩ := takeWhile_ne_nil_head _ _ hne
    exact ⟨c, rest', Or.inl (by rw [hc1]), hc2⟩
  · obtain ⟨rest, hrest⟩ := List.isPrefixOf_iff_prefix.mp h2
    subst hrest
    rw [List.drop_left' (show ("/design/".toList).length = 8 from rfl), tokenAfter] at h
    split_ifs at h with he
    have hne : rest.takeWhile isWordAlnum ≠ [] := fun h0 => he (by rw [h0]; rfl)
    obtain ⟨c, rest', hc1, hc2⟩ := takeWhile_ne_nil_head _ _ hne
    exact ⟨c, rest', Or.inr (by rw [hc1]), hc2⟩

theorem matchFileKeyAt_eq_none (suf : List Char) :
    matchFileKeyAt suf = none ↔ ¬ fileKeyHeadAt suf := by
  constructor
  · intro h hf
    obtain ⟨t, ht⟩ := matchFileKeyAt_some_of suf hf
    rw [h] at ht
    exact Option.noConfusion ht
  · intro h
    cases hm : matchFileKeyAt suf with
    | none => rfl
    | some t => exact absurd (fileKeyHeadAt_of_match suf t hm) h

theorem matchFileKeyAt_value (mark t post : List Char)
    (hmark : mark = "/file/".toList ∨ mark = "/design/".toList)
    (ht : t ≠ []) (hta : ∀ ch ∈ t, isWordAlnum ch = true)
    (hpost : ∀ d, post.head? = some d → isWordAlnum d = false) :
    matchFileKeyAt (mark ++ (t ++ post)) = some t := by
  have htw : (t ++ post).takeWhile isWordAlnum = t := takeWhile_append_of _ _ _ hta hpost
  have hne : ¬(((t ++ post).takeWhile isWordAlnum).isEmpty = true) := by
    rw [htw]
    cases t with
    | nil => exact absurd rfl ht
    | cons c t' => simp
  rcases hmark with rfl | rfl
  · rw [matchFileKeyAt, if_pos (List.isPrefixOf_iff_prefix.mpr ⟨_, rfl⟩),
      List.drop_left' (show ("/file/".toList).length = 6 from rfl), tokenAfter]
    rw [if_neg hne, htw]
  · have hnp : "/file/".toList.isPrefixOf ("/design/".toList ++ (t ++ post)) = false := rfl
    rw [matchFileKeyAt, if_neg (by rw [hnp]; exact Bool.false_ne_true),
      if_pos (List.isPrefixOf_iff_prefix.mpr ⟨_, rfl⟩), List.drop_left' (show ("/design/".toList).length = 8 from rfl), tokenAfter]
    rw [if_neg hne, htw]

theorem matchNodeIdAt_some_of (suf : List Char) (hn : nodeIdHeadAt suf) :
    ∃ ab, matchNodeIdAt suf = some ab := by
  obtain ⟨a, b, post, h1, ha, hb, had, hbd⟩ := hn
  subst h1
  have hta : (a ++ '-' :: (b ++ post)).takeWhile isDigitChar = a :=
    takeWhile_append_of _ _ _ had (fun d hd => by injection hd with h2; rw [← h2]; rfl)
  have hae : ¬(a.isEmpty = true) := by
    cases a with
    | nil => exact absurd rfl ha
    | cons x a' => simp
  rw [matchNodeIdAt,
    if_pos (List.isPrefixOf_iff_prefix.mpr ⟨a ++ '-' :: (b ++ post), rfl⟩)]
  dsimp only
  rw [List.drop_left' (show ("node-id=".toList).length = 8 from rfl), hta, if_neg hae,
    List.drop_left, if_pos (show ('-' :: (b ++ post)).head? = some '-' from rfl),
    show ('-' :: (b ++ post)).drop 1 = b ++ post from rfl]
  cases b with
  | nil => exact absurd rfl hb
  | cons y b' =>
      rw [List.cons_append, List.takeWhile_cons, if_pos (hbd y (List.mem_cons_self y b')),
        if_neg (by simp)]
      exact ⟨_, rfl⟩

theorem nodeIdHeadAt_of_match (suf : List Char) (ab : List Char × List Char)
    (h : matchNodeIdAt suf = some ab) : nodeIdHeadAt suf := by
  rw [matchNodeIdAt] at h
  dsimp only at h
  split_ifs at h with h1 h2 h3 h4
  obtain ⟨rest, hrest⟩ := List.isPrefixOf_iff_prefix.mp h1
  subst hrest
  rw [List.drop_left' (show ("node-id=".toList).length = 8 from rfl)] at h2 h3 h4 h
  have hdecomp : rest.takeWhile isDigitChar ++
      rest.drop (rest.takeWhile isDigitChar).length = rest :=
    prefix_append_drop (List.takeWhile_prefix _)
  cases htail : rest.drop (rest.takeWhile isDigitChar).length with
  | nil => rw [htail] at h3; exact Option.noConfusion h3
  | cons x tail =>
      rw [htail] at h3 hdecomp h4 h
      have hx : x = '-' := Option.some.inj h3
      subst hx
      rw [show ('-' :: tail).drop 1 = tail from rfl] at h4 h
      have hdecomp2 : tail.takeWhile isDigitChar ++
          tail.drop (tail.takeWhile isDigitChar).length = tail :=
        prefix_append_drop (List.takeWhile_prefix _)
      refine ⟨rest.takeWhile isDigitChar, tail.takeWhile isDigitChar,
        tail.drop (tail.takeWhile isDigitChar).length, ?_, ?_, ?_, ?_, ?_⟩
      · rw [hdecomp2, hdecomp]
      · exact fun h0 => h2 (by rw [h0]; rfl)
      · exact fun h0 => h4 (by rw [h0]; rfl)
      · exact fun ch hch => List.mem_takeWhile_imp hch
      · exact fun ch hch => List.mem_takeWhile_imp hch

theorem matchNodeIdAt_eq_none (suf : List Char) :
    matchNodeIdAt suf = none ↔ ¬ nodeIdHeadAt suf := by
  constructor
  · intro h hn
    obtain ⟨ab, hab⟩ := matchNodeIdAt_some_of suf hn
    rw [h] at hab
    exact Option.noConfusion hab
  · intro h
    cases hm : matchNodeIdAt suf with
    | none => rfl
    | some ab => exact absurd (nodeIdHeadAt_of_match suf ab hm) h

theorem matchNodeIdAt_value (a b post : List Char)
    (ha : a ≠ []) (hb : b ≠ [])
    (had : ∀ ch ∈ a, isDigitChar ch = true) (hbd : ∀ ch ∈ b, isDigitChar ch = true)
    (hpost : ∀ d, post.head? = some d → isDigitChar d = false) :
    matchNodeIdAt ("node-id=".toList ++ (a ++ '-' :: (b ++ post))) = some (a, b) := by
  have hta : (a ++ '-' :: (b ++ post)).takeWhile isDigitChar = a :=
    takeWhile_append_of _ _ _ had (fun d hd => by injection hd with h2; rw [← h2]; rfl)
  have htb : (b ++ post).takeWhile isDigitChar = b := takeWhile_append_of _ _ _ hbd hpost
  have hae : ¬(a.isEmpty = true) := by
    cases a with
    | nil => exact absurd rfl ha
    | cons x a' => simp
  have hbe : ¬(b.isEmpty = true) := by
    cases b with
    | nil => exact absurd rfl hb
    | cons x b' => simp
  rw [matchNodeIdAt,
    if_pos (List.isPrefixOf_iff_prefix.mpr ⟨a ++ '-' :: (b ++ post), rfl⟩)]
  dsimp only
  rw [List.drop_left' (show ("node-id=".toList).length = 8 from rfl), hta, if_neg hae,
    List.drop_left, if_pos (show ('-' :: (b ++ post)).head? = some '-' from rfl),
    show ('-' :: (b ++ post)).drop 1 = b ++ post from rfl, htb, if_neg hbe]

theorem searchFileKey_eq_none (cs : List Char) :
    searchFileKey cs = none ↔ ∀ n, ¬ fileKeyHeadAt (cs.drop n) := by
  induction cs with
  | nil =>
      constructor
      · intro _ n hf
        rw [List.drop_nil] at hf
        obtain ⟨c, post, h1 | h1, _⟩ := hf <;> exact List.noConfusion h1
      · intro _
        rfl
  | cons c0 cs ih =>
      constructor
      · intro h n
        rw [searchFileKey] at h
        cases hm : matchFileKeyAt (c0 :: cs) with
        | some t => rw [hm] at h; exact Option.noConfusion h
        | none =>
            rw [hm] at h
            cases n with
            | zero => exact (matchFileKeyAt_eq_none _).mp hm
            | succ n' => exact (ih.mp h) n'
      · intro h
        have h0 : matchFileKeyAt (c0 :: cs) = none := (matchFileKeyAt_eq_none _).mpr (h 0)
        rw [searchFileKey, h0]
        exact ih.mpr (fun n => h (n + 1))

theorem searchNodeId_eq_none (cs : List Char) :
    searchNodeId cs = none ↔ ∀ n, ¬ nodeIdHeadAt (cs.drop n) := by
  induction cs with
  | nil =>
      constructor
      · intro _ n hn
        rw [List.drop_nil] at hn
        obtain ⟨a, b, post, h1, -, -, -, -⟩ := hn
        exact List.noConfusion h1
      · intro _
        rfl
  | cons c0 cs ih =>
      constructor
      · intro h n
        rw [searchNodeId] at h
        cases hm : matchNodeIdAt (c0 :: cs) with
        | some ab => rw [hm] at h; exact Option.noConfusion h
        | none =>
            rw [hm] at h
            cases n with
            | zero => exact (matchNodeIdAt_eq_none _).mp hm
            | succ n' => exact (ih.mp h) n'
      · intro h
        have h0 : matchNodeIdAt (c0 :: cs) = none := (matchNodeIdAt_eq_none _).mpr (h 0)
        rw [searchNodeId, h0]
        exact ih.mpr (fun n => h (n + 1))

theorem searchFileKey_append (pre suf : List Char)
    (h : ∀ n, n < pre.length → matchFileKeyAt ((pre ++ suf).drop n) = none) :
    searchFileKey (pre ++ suf) = searchFileKey suf := by
  induction pre with
  | nil => rfl
  | cons c pre' ih =>
      have h0 : matchFileKeyAt (c :: (pre' ++ suf)) = none := h 0 (by simp)
      rw [List.cons_append, searchFileKey, h0]
      exact ih (fun n hn => h (n + 1) (by simp only [List.length_cons]; omega))

theorem searchNodeId_append (pre suf : List Char)
    (h : ∀ n, n < pre.length → matchNodeIdAt ((pre ++ suf).drop n) = none) :
    searchNodeId (pre ++ suf) = searchNodeId suf := by
  induction pre with
  | nil => rfl
  | cons c pre' ih =>
      have h0 : matchNodeIdAt (c :: (pre' ++ suf)) = none := h 0 (by simp)
      rw [List.cons_append, searchNodeId, h0]
      exact ih (fun n hn => h (n + 1) (by simp only [List.length_cons]; omega))

/-- **C9.** `FigmaClient.parse_file_url` extracts the file key and node id
exactly as the regexes `/(?:file|design)/([A-Za-z0-9]+)` and
`node-id=([0-9]+-[0-9]+)` dictate: the anchored matcher succeeds at a position
iff a `/file/<alnum…>` / `/design/<alnum…>` (resp. `node-id=<digits>-<digits>`)
occurrence starts there; the file key (resp. node id) is absent iff no
position of the URL carries such an occurrence; and when an occurrence with a
maximal token starts at the leftmost matching position, the returned file key
is exactly that token, and the returned node id is `<a>:<b>` for digit groups
`a` and `b`. -/
theorem parse_file_url_spec (url : String) :
    (∀ suf : List Char, matchFileKeyAt suf = none ↔ ¬ fileKeyHeadAt suf) ∧
    (∀ suf : List Char, matchNodeIdAt suf = none ↔ ¬ nodeIdHeadAt suf) ∧
    ((parse_file_url url).1 = none ↔ ∀ n, ¬ fileKeyHeadAt (url.toList.drop n)) ∧
    (∀ pre mark t post, url.toList = pre ++ (mark ++ (t ++ post)) →
      (mark = "/file/".toList ∨ mark = "/design/".toList) →
      t ≠ [] → (∀ ch ∈ t, isWordAlnum ch = true) →
      (∀ d, post.head? = some d → isWordAlnum d = false) →
      (∀ n, n < pre.length → matchFileKeyAt (url.toList.drop n) = none) →
      (parse_file_url url).1 = some (String.mk t)) ∧
    ((parse_file_url url).2 = none ↔ ∀ n, ¬ nodeIdHeadAt (url.toList.drop n)) ∧
    (∀ pre a b post, url.toList = pre ++ ("node-id=".toList ++ (a ++ '-' :: (b ++ post))) →
      a ≠ [] → b ≠ [] →
      (∀ ch ∈ a, isDigitChar ch = true) → (∀ ch ∈ b, isDigitChar ch = true) →
      (∀ d, post.head? = some d → isDigitChar d = false) →
      (∀ n, n < pre.length → matchNodeIdAt (url.toList.drop n) = none) →
      (parse_file_url url).2 = some (String.mk (a ++ ':' :: b))) := by
  refine ⟨matchFileKeyAt_eq_none, matchNodeIdAt_eq_none, ?_, ?_, ?_, ?_⟩
  · rw [parse_file_url]
    dsimp only
    rw [Option.map_eq_none']
    exact searchFileKey_eq_none url.toList
  · intro pre mark t post hurl hmark ht hta hpost hleft
    rw [parse_file_url]
    dsimp only
    rw [hurl] at hleft ⊢
    rw [searchFileKey_append pre _ hleft]
    rcases hmark with rfl | rfl
    · have hm' : matchFileKeyAt ('/' :: 'f' :: 'i' :: 'l' :: 'e' :: '/' :: (t ++ post))
          = some t :=
        matchFileKeyAt_value "/file/".toList t post (Or.inl rfl) ht hta hpost
      rw [show ∀ X : List Char, "/file/".toList ++ X
            = '/' :: 'f' :: 'i' :: 'l' :: 'e' :: '/' :: X from fun _ => rfl,
        searchFileKey, hm']
      rfl
    · have hm' : matchFileKeyAt
          ('/' :: 'd' :: 'e' :: 's' :: 'i' :: 'g' :: 'n' :: '/' :: (t ++ post)) = some t :=
        matchFileKeyAt_value "/design/".toList t post (Or.inr rfl) ht hta hpost
      rw [show ∀ X : List Char, "/design/".toList ++ X
            = '/' :: 'd' :: 'e' :: 's' :: 'i' :: 'g' :: 'n' :: '/' :: X from fun _ => rfl,
        searchFileKey, hm']
      rfl
  · rw [parse_file_url]
    dsimp only
    rw [Option.map_eq_none']
    exact searchNodeId_eq_none url.toList
  · intro pre a b post hurl ha hb had hbd hpost hleft
    rw [parse_file_url]
    dsimp only
    rw [hurl] at hleft ⊢
    rw [searchNodeId_append pre _ hleft]
    have hm' : matchNodeIdAt
        ('n' :: 'o' :: 'd' :: 'e' :: '-' :: 'i' :: 'd' :: '=' :: (a ++ '-' :: (b ++ post)))
        = some (a, b) :=
      matchNodeIdAt_value a b post ha hb had hbd hpost
    rw [show ∀ X : List Char, "node-id=".toList ++ X
          = 'n' :: 'o' :: 'd' :: 'e' :: '-' :: 'i' :: 'd' :: '=' :: X from fun _ => rfl,
      searchNodeId, hm']
    rfl

/-- C9 witness: the claim theorem applied to a concrete Figma URL, with every
hypothesis discharged by evaluation. -/
theorem parse_file_url_spec_witness :
    parse_file_url "https://www.figma.com/design/ABC123/MyFile?node-id=12-34"
      = (some "ABC123", some "12:34") := by
  obtain ⟨-, -, -, hfile, -, hnode⟩ :=
    parse_file_url_spec "https://www.figma.com/design/ABC123/MyFile?node-id=12-34"
  have h1 := hfile "https://www.figma.com".toList "/design/".toList "ABC123".toList
    "/MyFile?node-id=12-34".toList rfl (Or.inr rfl) (by decide) (by decide)
    (by intro d hd; injection hd with h2; rw [← h2]; rfl) (by decide)
  have h2 := hnode "https://www.figma.com/design/ABC123/MyFile?".toList "12".toList
    "34".toList [] rfl (by decide) (by decide) (by decide) (by decide)
    (by intro d hd; exact Option.noConfusion hd) (by decide)
  exact Prod.ext h1 h2

/-! ### C7: idempotence of AGGRESSIVE filtering -/

theorem pyRound1_fixed (r : ℚ) (h : ((r.den : ℕ) : ℤ) ∣ 10) : pyRound1 r = r := by
  have hd : (0 : ℤ) < (r.den : ℤ) := den_pos_int r
  have hdvd : ((r.den : ℕ) : ℤ) ∣ 10 * r.num := Dvd.dvd.mul_right h r.num
  have hmod : (10 * r.num) % (r.den : ℤ) = 0 := Int.emod_eq_zero_of_dvd hdvd
  have hRS : roundHalfEvenScaled (10 * r.num) (r.den : ℤ) = 10 * r.num / (r.den : ℤ) := by
    simp only [roundHalfEvenScaled]
    rw [hmod]
    rw [if_pos (by omega)]
  rw [pyRound1, hRS, Rat.divInt_eq_div]
  rw [show (((10 : ℤ) : ℚ)) = (10 : ℚ) from by norm_num]
  conv_rhs => rw [← Rat.num_div_den r]
  rw [div_eq_div_iff (by norm_num : (10 : ℚ) ≠ 0) (by positivity : ((r.den : ℕ) : ℚ) ≠ 0)]
  have ht : 10 * r.num / (r.den : ℤ) * (r.den : ℤ) = 10 * r.num := Int.ediv_mul_cancel hdvd
  have hZ : 10 * r.num / (r.den : ℤ) * (r.den : ℤ) = r.num * 10 := by
    rw [ht, mul_comm]
  exact_mod_cast hZ

theorem round_number_idem (n : PyNum) : round_number (round_number n) = round_number n := by
  cases n with
  | int m => rfl
  | float q =>
      have h1 : round_number (.float q)
          = if (pyRound1 q).den = 1 then .int (pyRound1 q).num else .float (pyRound1 q) := rfl
      rw [h1]
      by_cases hden : (pyRound1 q).den = 1
      · rw [if_pos hden]
        rfl
      · rw [if_neg hden]
        have hdvd : (((pyRound1 q).den : ℕ) : ℤ) ∣ 10 := by
          rw [pyRound1]
          exact Rat.den_dvd _ _
        have hfix : pyRound1 (pyRound1 q) = pyRound1 q := pyRound1_fixed _ hdvd
        have h2 : round_number (.float (pyRound1 q))
            = if (pyRound1 (pyRound1 q)).den = 1 then .int (pyRound1 (pyRound1 q)).num
              else .float (pyRound1 (pyRound1 q)) := rfl
        rw [h2, hfix, if_neg hden]

theorem round_number_j_idem (v w : Json) (h : round_number_j v = some w) :
    round_number_j w = some w ∧ visOk w = true := by
  cases v with
  | num n =>
      have hw : Json.num (round_number n) = w := Option.some.inj h
      subst hw
      refine ⟨?_, rfl⟩
      show some (Json.num (round_number (round_number n))) = some (Json.num (round_number n))
      rw [round_number_idem]
  | bool b =>
      have hw : Json.bool b = w := Option.some.inj h
      subst hw
      exact ⟨rfl, rfl⟩
  | null => exact Option.noConfusion h
  | str s => exact Option.noConfusion h
  | arr xs => exact Option.noConfusion h
  | obj fs => exact Option.noConfusion h

theorem visOkFields_cons (k : String) (v : Json) (rest : List (String × Json)) :
    visOkFields ((k, v) :: rest) = (visBoolOk k v && visOk v && visOkFields rest) := rfl

theorem jget_cons_eq (k : String) (v : Json) (rest : List (String × Json)) (d : Json) :
    jget ((k, v) :: rest) k d = v := by
  rw [jget, jlookup, if_pos rfl]

theorem jget_cons_ne (k key : String) (v : Json) (rest : List (String × Json)) (d : Json)
    (h : k ≠ key) : jget ((k, v) :: rest) key d = jget rest key d := by
  rw [jget, jget, jlookup, if_neg h]

theorem visOkList_iff (l : List Json) : visOkList l = true ↔ ∀ c ∈ l, visOk c = true := by
  induction l with
  | nil => simp [visOkList]
  | cons c rest ih =>
      rw [visOkList]
      simp only [Bool.and_eq_true, ih, List.mem_cons]
      constructor
      · rintro ⟨h1, h2⟩ x hx
        rcases hx with rfl | hx
        · exact h1
        · exact h2 x hx
      · intro hx
        exact ⟨hx c (Or.inl rfl), fun x hxx => hx x (Or.inr hxx)⟩

theorem boundsFields_stable (bf : List (String × Json)) : ∀ (out : List (String × Json)),
    boundsFields bf = some out → boundsFields out = some out ∧ visOkFields out = true := by
  induction bf with
  | nil =>
      intro out h
      rw [boundsFields] at h
      cases h
      exact ⟨rfl, rfl⟩
  | cons kv rest ih =>
      intro out h
      obtain ⟨k, v⟩ := kv
      rw [boundsFields] at h
      split_ifs at h with hk
      · cases hrn : round_number_j v with
        | none => rw [hrn] at h; exact Option.noConfusion h
        | some v' =>
            rw [hrn] at h
            cases hrec : boundsFields rest with
            | none => rw [hrec] at h; exact Option.noConfusion h
            | some out' =>
                rw [hrec] at h
                have hout : (k, v') :: out' = out := Option.some.inj h
                subst hout
                obtain ⟨ih1, ih2⟩ := ih out' hrec
                obtain ⟨hrn2, hvis⟩ := round_number_j_idem v v' hrn
                constructor
                · rw [boundsFields, if_pos hk, hrn2, ih1]
                  rfl
                · have hkv : k ≠ "visible" := by
                    rcases hk with rfl | rfl | rfl | rfl <;> decide
                  rw [visOkFields_cons, visBoolOk, if_neg hkv, hvis, ih2]
                  rfl
      · exact ih out h

theorem noteRecord_stable (maxD curD : ℕ) (n : ℕ) : StableChild maxD curD (noteRecord n) :=
  ⟨⟨[("type", .str "_note"),
     ("text", .str ("... and " ++ toString n ++ " similar items"))], rfl, rfl⟩, rfl, rfl⟩

theorem filterChildList_of_stable (l : List Json) (maxD curD : ℕ) :
    (∀ c ∈ l, StableChild maxD curD c) →
    filterChildList .aggressive l maxD curD = some l := by
  induction l with
  | nil =>
      intro _
      rfl
  | cons c rest ih =>
      intro h
      obtain ⟨⟨cf, hcf, hvis⟩, hfix, -⟩ := h c (List.mem_cons_self c rest)
      subst hcf
      show (if (jget cf "visible" (Json.bool true)).truthy = false then
          filterChildList .aggressive rest maxD curD
        else
          match filter_design_data .aggressive (Json.obj cf) maxD (curD + 1) with
          | none => none
          | some fc =>
              match filterChildList .aggressive rest maxD curD with
              | none => none
              | some out => some (fc :: out)) = some (Json.obj cf :: rest)
      rw [if_neg (by simp [hvis]), hfix, ih (fun x hx => h x (List.mem_cons_of_mem (Json.obj cf) hx))]

theorem filterFields_cons (lvl : FilterLevel) (key : String) (value : Json)
    (rest : List (String × Json)) (maxD curD : ℕ) :
    filterFields lvl ((key, value) :: rest) maxD curD =
      if UNWANTED_PROPERTIES.contains key then filterFields lvl rest maxD curD
      else if skippedByLevel lvl key then filterFields lvl rest maxD curD
      else match transformValue lvl key value maxD curD with
        | none => none
        | some v' =>
            match filterFields lvl rest maxD curD with
            | none => none
            | some out => some ((key, v') :: out) := by
  cases value <;> rfl

theorem transformValue_children (lvl : FilterLevel) (value : Json) (maxD curD : ℕ) :
    transformValue lvl "children" value maxD curD = filter_children lvl value maxD curD := rfl

theorem transformValue_bounds (lvl : FilterLevel) (value : Json) (maxD curD : ℕ) :
    transformValue lvl "bounds" value maxD curD = simplify_bounds value := rfl

theorem filter_children_eq (lvl : FilterLevel) (v : Json) (maxD curD : ℕ) :
    filter_children lvl v maxD curD =
      if maxD ≤ curD then some (Json.arr [])
      else
        match v with
        | Json.arr cs =>
            match filterChildList lvl cs maxD curD with
            | none => none
            | some fc =>
                if 10 < fc.length then
                  match are_children_repetitive fc with
                  | none => none
                  | some true => some (Json.arr (fc.take 2 ++ [noteRecord (fc.length - 2)]))
                  | some false => some (Json.arr fc)
                else some (Json.arr fc)
        | Json.str s => if s = "" then some (Json.arr []) else none
        | Json.obj [] => some (Json.arr [])
        | _ => none := by
  cases v with
  | null => rfl
  | bool b => rfl
  | num n => rfl
  | str s => rfl
  | arr cs => rfl
  | obj fs0 =>
      cases fs0 with
      | nil => rfl
      | cons p ps => rfl

theorem filterFields_cons_kept {lvl : FilterLevel} {key : String} {value : Json}
    {rest : List (String × Json)} {maxD curD : ℕ} {v' : Json}
    {out' : List (String × Json)}
    (hu : ¬ UNWANTED_PROPERTIES.contains key = true)
    (hs : ¬ skippedByLevel lvl key = true)
    (htr : transformValue lvl key value maxD curD = some v')
    (hrest : filterFields lvl rest maxD curD = some out') :
    filterFields lvl ((key, value) :: rest) maxD curD = some ((key, v') :: out') := by
  rw [filterFields_cons, if_neg hu, if_neg hs, htr, hrest]

theorem filterFields_cons_kept_inv {lvl : FilterLevel} {key : String} {value : Json}
    {rest : List (String × Json)} {maxD curD : ℕ} {out : List (String × Json)}
    (hu : ¬ UNWANTED_PROPERTIES.contains key = true)
    (hs : ¬ skippedByLevel lvl key = true)
    (h : filterFields lvl ((key, value) :: rest) maxD curD = some out) :
    ∃ v' out', transformValue lvl key value maxD curD = some v' ∧
      filterFields lvl rest maxD curD = some out' ∧ out = (key, v') :: out' := by
  rw [filterFields_cons, if_neg hu, if_neg hs] at h
  cases htr : transformValue lvl key value maxD curD with
  | none => rw [htr] at h; exact Option.noConfusion h
  | some v' =>
      rw [htr] at h
      cases hrest : filterFields lvl rest maxD curD with
      | none => rw [hrest] at h; exact Option.noConfusion h
      | some out' =>
          rw [hrest] at h
          exact ⟨v', out', rfl, rfl, (Option.some.inj h).symm⟩

mutual

theorem stable_fields (fs : List (String × Json)) (maxD curD : ℕ)
    (out : List (String × Json)) (hv : visOkFields fs = true)
    (h : filterFields .aggressive fs maxD curD = some out) :
    filterFields .aggressive out maxD curD = some out ∧ visOkFields out = true ∧
    jget out "visible" (.bool true) = jget fs "visible" (.bool true) := by
  cases fs with
  | nil =>
      rw [filterFields] at h
      cases h
      exact ⟨rfl, rfl, rfl⟩
  | cons kv rest =>
      obtain ⟨key, value⟩ := kv
      rw [visOkFields_cons] at hv
      simp only [Bool.and_eq_true] at hv
      obtain ⟨⟨hvk, hvv⟩, hvr⟩ := hv
      by_cases hu : UNWANTED_PROPERTIES.contains key = true
      · rw [filterFields_cons, if_pos hu] at h
        obtain ⟨ih1, ih2, ih3⟩ := stable_fields rest maxD curD out hvr h
        refine ⟨ih1, ih2, ?_⟩
        have hne : key ≠ "visible" := by
          intro he
          subst he
          exact absurd hu (by decide)
        rw [ih3, jget_cons_ne key "visible" value rest (Json.bool true) hne]
      · by_cases hs : skippedByLevel .aggressive key = true
        · rw [filterFields_cons, if_neg hu, if_pos hs] at h
          obtain ⟨ih1, ih2, ih3⟩ := stable_fields rest maxD curD out hvr h
          refine ⟨ih1, ih2, ?_⟩
          have hne : key ≠ "visible" := by
            intro he
            subst he
            exact absurd hs (by decide)
          rw [ih3, jget_cons_ne key "visible" value rest (Json.bool true) hne]
        · obtain ⟨v', out', htr, hrec, hout⟩ := filterFields_cons_kept_inv hu hs h
          subst hout
          obtain ⟨ih1, ih2, ih3⟩ := stable_fields rest maxD curD out' hvr hrec
          have hclass : CRITICAL_PROPERTIES.contains key = true ∨ key = "children" := by
            by_contra hc
            push_neg at hc
            obtain ⟨hc1, hc2⟩ := hc
            apply hs
            have h1 : CRITICAL_PROPERTIES.contains key = false := Bool.eq_false_iff.mpr hc1
            show (!CRITICAL_PROPERTIES.contains key && key != "children") = true
            rw [h1]
            simp [bne_iff_ne, hc2]
          by_cases hck : key = "children"
          · subst hck
            rw [transformValue_children] at htr
            obtain ⟨hcfix, hcvis⟩ := stable_childval value maxD curD v' hvv htr
            refine ⟨filterFields_cons_kept hu hs ?_ ih1, ?_, ?_⟩
            · rw [transformValue_children]
              exact hcfix
            · rw [visOkFields_cons]
              simp only [Bool.and_eq_true]
              exact ⟨⟨by rw [visBoolOk,
                if_neg (by decide : ¬ ("children" : String) = "visible")], hcvis⟩, ih2⟩
            · rw [jget_cons_ne "children" "visible" v' out' (Json.bool true) (by decide),
                jget_cons_ne "children" "visible" value rest (Json.bool true) (by decide), ih3]
          · by_cases hkf : key = "fills"
            · exfalso
              subst hkf
              rcases hclass with hc | hc
              · exact absurd hc (by decide)
              · exact absurd hc (by decide)
            · by_cases hkst : key = "strokes"
              · exfalso
                subst hkst
                rcases hclass with hc | hc
                · exact absurd hc (by decide)
                · exact absurd hc (by decide)
              · by_cases hkb : key = "bounds"
                · subst hkb
                  rw [transformValue_bounds] at htr
                  cases value with
                  | obj bf =>
                      have htr' : (boundsFields bf).map Json.obj = some v' := htr
                      cases hbf : boundsFields bf with
                      | none => rw [hbf] at htr'; exact Option.noConfusion htr'
                      | some bf' =>
                          rw [hbf] at htr'
                          have hv' : Json.obj bf' = v' := Option.some.inj htr'
                          subst hv'
                          obtain ⟨b1, b2⟩ := boundsFields_stable bf bf' hbf
                          refine ⟨filterFields_cons_kept hu hs ?_ ih1, ?_, ?_⟩
                          · rw [transformValue_bounds]
                            show (boundsFields bf').map Json.obj = some (Json.obj bf')
                            rw [b1]
                            rfl
                          · rw [visOkFields_cons]
                            simp only [Bool.and_eq_true]
                            exact ⟨⟨by rw [visBoolOk,
                              if_neg (by decide : ¬ ("bounds" : String) = "visible")], b2⟩, ih2⟩
                          · rw [jget_cons_ne "bounds" "visible" (Json.obj bf') out'
                                (Json.bool true) (by decide),
                              jget_cons_ne "bounds" "visible" (Json.obj bf) rest
                                (Json.bool true) (by decide), ih3]
                  | null => exact Option.noConfusion htr
                  | bool b => exact Option.noConfusion htr
                  | num n => exact Option.noConfusion htr
                  | str s => exact Option.noConfusion htr
                  | arr xs => exact Option.noConfusion htr
                · cases value with
                  | obj gf =>
                      have hne : key ≠ "visible" := by
                        intro he
                        rw [visBoolOk, if_pos he] at hvk
                        exact Bool.noConfusion hvk
                      rw [transformValue, if_neg hck, if_neg hkf, if_neg hkst, if_neg hkb] at htr
                      have htr' : (filterFields .aggressive gf maxD curD).map Json.obj
                          = some v' := htr
                      cases hff : filterFields .aggressive gf maxD curD with
                      | none => rw [hff] at htr'; exact Option.noConfusion htr'
                      | some out2 =>
                          rw [hff] at htr'
                          have hv' : Json.obj out2 = v' := Option.some.inj htr'
                          subst hv'
                          obtain ⟨g1, g2, -⟩ := stable_fields gf maxD curD out2 hvv hff
                          refine ⟨filterFields_cons_kept hu hs ?_ ih1, ?_, ?_⟩
                          · rw [transformValue, if_neg hck, if_neg hkf, if_neg hkst, if_neg hkb]
                            show (filterFields .aggressive out2 maxD curD).map Json.obj
                              = some (Json.obj out2)
                            rw [g1]
                            rfl
                          · rw [visOkFields_cons]
                            simp only [Bool.and_eq_true]
                            exact ⟨⟨by rw [visBoolOk, if_neg hne], g2⟩, ih2⟩
                          · rw [jget_cons_ne key "visible" (Json.obj out2) out'
                                (Json.bool true) hne,
                              jget_cons_ne key "visible" (Json.obj gf) rest
                                (Json.bool true) hne, ih3]
                  | num n =>
                      have hne : key ≠ "visible" := by
                        intro he
                        rw [visBoolOk, if_pos he] at hvk
                        exact Bool.noConfusion hvk
                      rw [transformValue, if_neg hck, if_neg hkf, if_neg hkst, if_neg hkb] at htr
                      have hv' := Option.some.inj htr
                      subst hv'
                      refine ⟨filterFields_cons_kept hu hs ?_ ih1, ?_, ?_⟩
                      · rw [transformValue, if_neg hck, if_neg hkf, if_neg hkst, if_neg hkb]
                        show some (Json.num (round_number (round_number n)))
                          = some (Json.num (round_number n))
                        rw [round_number_idem]
                      · rw [visOkFields_cons]
                        simp only [Bool.and_eq_true]
                        exact ⟨⟨by rw [visBoolOk, if_neg hne], rfl⟩, ih2⟩
                      · rw [jget_cons_ne key "visible" (Json.num (round_number n)) out'
                            (Json.bool true) hne,
                          jget_cons_ne key "visible" (Json.num n) rest (Json.bool true) hne,
                          ih3]
                  | bool b =>
                      rw [transformValue, if_neg hck, if_neg hkf, if_neg hkst, if_neg hkb] at htr
                      have hv' := Option.some.inj htr
                      subst hv'
                      refine ⟨filterFields_cons_kept hu hs ?_ ih1, ?_, ?_⟩
                      · rw [transformValue, if_neg hck, if_neg hkf, if_neg hkst, if_neg hkb]
                      · rw [visOkFields_cons]
                        simp only [Bool.and_eq_true]
                        refine ⟨⟨?_, rfl⟩, ih2⟩
                        rw [visBoolOk]
                        split_ifs <;> rfl
                      · by_cases hkv : key = "visible"
                        · subst hkv
                          rw [jget_cons_eq "visible" (Json.bool b) out' (Json.bool true),
                            jget_cons_eq "visible" (Json.bool b) rest (Json.bool true)]
                        · rw [jget_cons_ne key "visible" (Json.bool b) out'
                              (Json.bool true) hkv,
                            jget_cons_ne key "visible" (Json.bool b) rest
                              (Json.bool true) hkv, ih3]
                  | str s =>
                      have hne : key ≠ "visible" := by
                        intro he
                        rw [visBoolOk, if_pos he] at hvk
                        exact Bool.noConfusion hvk
                      rw [transformValue, if_neg hck, if_neg hkf, if_neg hkst, if_neg hkb] at htr
                      have hv' := Option.some.inj htr
                      subst hv'
                      refine ⟨filterFields_cons_kept hu hs ?_ ih1, ?_, ?_⟩
                      · rw [transformValue, if_neg hck, if_neg hkf, if_neg hkst, if_neg hkb]
                      · rw [visOkFields_cons]
                        simp only [Bool.and_eq_true]
                        exact ⟨⟨by rw [visBoolOk, if_neg hne], rfl⟩, ih2⟩
                      · rw [jget_cons_ne key "visible" (Json.str s) out' (Json.bool true) hne,
                          jget_cons_ne key "visible" (Json.str s) rest (Json.bool true) hne,
                          ih3]
                  | null =>
                      have hne : key ≠ "visible" := by
                        intro he
                        rw [visBoolOk, if_pos he] at hvk
                        exact Bool.noConfusion hvk
                      rw [transformValue, if_neg hck, if_neg hkf, if_neg hkst, if_neg hkb] at htr
                      have hv' := Option.some.inj htr
                      subst hv'
                      refine ⟨filterFields_cons_kept hu hs ?_ ih1, ?_, ?_⟩
                      · rw [transformValue, if_neg hck, if_neg hkf, if_neg hkst, if_neg hkb]
                      · rw [visOkFields_cons]
                        simp only [Bool.and_eq_true]
                        exact ⟨⟨by rw [visBoolOk, if_neg hne], rfl⟩, ih2⟩
                      · rw [jget_cons_ne key "visible" Json.null out' (Json.bool true) hne,
                          jget_cons_ne key "visible" Json.null rest (Json.bool true) hne, ih3]
                  | arr xs =>
                      have hne : key ≠ "visible" := by
                        intro he
                        rw [visBoolOk, if_pos he] at hvk
                        exact Bool.noConfusion hvk
                      rw [transformValue, if_neg hck, if_neg hkf, if_neg hkst, if_neg hkb] at htr
                      have hv' := Option.some.inj htr
                      subst hv'
                      refine ⟨filterFields_cons_kept hu hs ?_ ih1, ?_, ?_⟩
                      · rw [transformValue, if_neg hck, if_neg hkf, if_neg hkst, if_neg hkb]
                      · rw [visOkFields_cons]
                        simp only [Bool.and_eq_true]
                        exact ⟨⟨by rw [visBoolOk, if_neg hne], hvv⟩, ih2⟩
                      · rw [jget_cons_ne key "visible" (Json.arr xs) out' (Json.bool true) hne,
                          jget_cons_ne key "visible" (Json.arr xs) rest (Json.bool true) hne,
                          ih3]

theorem stable_childval (v : Json) (maxD curD : ℕ) (w : Json) (hv : visOk v = true)
    (h : filter_children .aggressive v maxD curD = some w) :
    filter_children .aggressive w maxD curD = some w ∧ visOk w = true := by
  rw [filter_children_eq] at h
  by_cases hd : maxD ≤ curD
  · rw [if_pos hd] at h
    have hw : Json.arr [] = w := Option.some.inj h
    subst hw
    exact ⟨by rw [filter_children_eq, if_pos hd], rfl⟩
  · rw [if_neg hd] at h
    cases v with
    | arr cs =>
        have h' : (match filterChildList .aggressive cs maxD curD with
            | none => none
            | some fc =>
                if 10 < fc.length then
                  match are_children_repetitive fc with
                  | none => none
                  | some true => some (Json.arr (fc.take 2 ++ [noteRecord (fc.length - 2)]))
                  | some false => some (Json.arr fc)
                else some (Json.arr fc)) = some w := h
        cases hfc : filterChildList .aggressive cs maxD curD with
        | none => rw [hfc] at h'; exact Option.noConfusion h'
        | some fc =>
            rw [hfc] at h'
            have h'' : (if 10 < fc.length then
                match are_children_repetitive fc with
                | none => none
                | some true => some (Json.arr (fc.take 2 ++ [noteRecord (fc.length - 2)]))
                | some false => some (Json.arr fc)
              else some (Json.arr fc)) = some w := h'
            have hstable : ∀ c ∈ fc, StableChild maxD curD c :=
              stable_childlist cs maxD curD fc hv hfc
            have hfc2 : filterChildList .aggressive fc maxD curD = some fc :=
              filterChildList_of_stable fc maxD curD hstable
            have hvisfc : visOkList fc = true :=
              (visOkList_iff fc).mpr (fun c hc => (hstable c hc).2.2)
            by_cases h10 : 10 < fc.length
            · rw [if_pos h10] at h''
              cases hrep : are_children_repetitive fc with
              | none => rw [hrep] at h''; exact Option.noConfusion h''
              | some b =>
                  rw [hrep] at h''
                  cases b with
                  | true =>
                      have hw : Json.arr (fc.take 2 ++ [noteRecord (fc.length - 2)]) = w :=
                        Option.some.inj h''
                      subst hw
                      have hZstable : ∀ c ∈ fc.take 2 ++ [noteRecord (fc.length - 2)],
                          StableChild maxD curD c := by
                        intro c hc
                        rw [List.mem_append] at hc
                        rcases hc with hc | hc
                        · exact hstable c (List.mem_of_mem_take hc)
                        · rw [List.mem_singleton] at hc
                          subst hc
                          exact noteRecord_stable maxD curD (fc.length - 2)
                      have hZlen : (fc.take 2 ++ [noteRecord (fc.length - 2)]).length = 3 := by
                        rw [List.length_append, List.length_take]
                        simp only [List.length_cons, List.length_nil]
                        omega
                      constructor
                      · have hfcZ := filterChildList_of_stable
                          (fc.take 2 ++ [noteRecord (fc.length - 2)]) maxD curD hZstable
                        rw [filter_children_eq, if_neg hd]
                        dsimp only
                        rw [hfcZ]
                        dsimp only
                        rw [if_neg (by rw [hZlen]; omega)]
                      · show visOkList (fc.take 2 ++ [noteRecord (fc.length - 2)]) = true
                        exact (visOkList_iff _).mpr (fun c hc => (hZstable c hc).2.2)
                  | false =>
                      have hw : Json.arr fc = w := Option.some.inj h''
                      subst hw
                      constructor
                      · rw [filter_children_eq, if_neg hd]
                        dsimp only
                        rw [hfc2]
                        dsimp only
                        rw [if_pos h10, hrep]
                      · exact hvisfc
            · rw [if_neg h10] at h''
              have hw : Json.arr fc = w := Option.some.inj h''
              subst hw
              constructor
              · rw [filter_children_eq, if_neg hd]
                dsimp only
                rw [hfc2]
                dsimp only
                rw [if_neg h10]
              · exact hvisfc
    | str s =>
        have h' : (if s = "" then some (Json.arr []) else none) = some w := h
        by_cases hstr : s = ""
        · rw [if_pos hstr] at h'
          have hw : Json.arr [] = w := Option.some.inj h'
          subst hw
          refine ⟨?_, rfl⟩
          rw [filter_children_eq, if_neg hd]
          rfl
        · rw [if_neg hstr] at h'
          exact Option.noConfusion h'
    | obj fs0 =>
        cases fs0 with
        | nil =>
            have hw : Json.arr [] = w := Option.some.inj h
            subst hw
            refine ⟨?_, rfl⟩
            rw [filter_children_eq, if_neg hd]
            rfl
        | cons p ps => exact Option.noConfusion h
    | null => exact Option.noConfusion h
    | bool b => exact Option.noConfusion h
    | num n => exact Option.noConfusion h

theorem stable_childlist (cs : List Json) (maxD curD : ℕ) (fc : List Json)
    (hv : visOkList cs = true)
    (h : filterChildList .aggressive cs maxD curD = some fc) :
    ∀ c ∈ fc, StableChild maxD curD c := by
  cases cs with
  | nil =>
      rw [filterChildList] at h
      cases h
      intro c hc
      exact absurd hc (List.not_mem_nil c)
  | cons child rest =>
      rw [visOkList] at hv
      simp only [Bool.and_eq_true] at hv
      obtain ⟨hvc, hvr⟩ := hv
      cases child with
      | obj cf =>
          have h' : (if (jget cf "visible" (Json.bool true)).truthy = false then
              filterChildList .aggressive rest maxD curD
            else
              match filter_design_data .aggressive (Json.obj cf) maxD (curD + 1) with
              | none => none
              | some fcv =>
                  match filterChildList .aggressive rest maxD curD with
                  | none => none
                  | some out => some (fcv :: out)) = some fc := h
          by_cases hvis : (jget cf "visible" (Json.bool true)).truthy = false
          · rw [if_pos hvis] at h'
            exact stable_childlist rest maxD curD fc hvr h'
          · rw [if_neg hvis] at h'
            cases hfd : filter_design_data .aggressive (Json.obj cf) maxD (curD + 1) with
            | none => rw [hfd] at h'; exact Option.noConfusion h'
            | some fcv =>
                rw [hfd] at h'
                cases hrec : filterChildList .aggressive rest maxD curD with
                | none => rw [hrec] at h'; exact Option.noConfusion h'
                | some out =>
                    rw [hrec] at h'
                    have hfceq : fcv :: out = fc := Option.some.inj h'
                    subst hfceq
                    have hfdd : (filterFields .aggressive cf maxD (curD + 1)).map Json.obj
                        = some fcv := hfd
                    cases hff : filterFields .aggressive cf maxD (curD + 1) with
                    | none => rw [hff] at hfdd; exact Option.noConfusion hfdd
                    | some outf =>
                        rw [hff] at hfdd
                        have hfcv : Json.obj outf = fcv := Option.some.inj hfdd
                        subst hfcv
                        obtain ⟨f1, f2, f3⟩ := stable_fields cf maxD (curD + 1) outf hvc hff
                        intro c hc
                        rw [List.mem_cons] at hc
                        rcases hc with rfl | hc
                        · refine ⟨⟨outf, rfl, ?_⟩, ?_, ?_⟩
                          · rw [f3]
                            rcases Bool.eq_false_or_eq_true
                                ((jget cf "visible" (Json.bool true)).truthy) with hb | hb
                            · exact hb
                            · exact absurd hb hvis
                          · show (filterFields .aggressive outf maxD (curD + 1)).map Json.obj
                              = some (Json.obj outf)
                            rw [f1]
                            rfl
                          · exact f2
                        · exact stable_childlist rest maxD curD out hvr hrec c hc
      | null => exact Option.noConfusion h
      | bool b => exact Option.noConfusion h
      | num n => exact Option.noConfusion h
      | str s => exact Option.noConfusion h
      | arr xs => exact Option.noConfusion h

end

theorem stable_data (r : Json) (maxD curD : ℕ) (y : Json) (hv : visOk r = true)
    (h : filter_design_data .aggressive r maxD curD = some y) :
    filter_design_data .aggressive y maxD curD = some y ∧ visOk y = true := by
  cases r with
  | obj fields =>
      have h' : (filterFields .aggressive fields maxD curD).map Json.obj = some y := h
      cases hff : filterFields .aggressive fields maxD curD with
      | none => rw [hff] at h'; exact Option.noConfusion h'
      | some out =>
          rw [hff] at h'
          have hy : Json.obj out = y := Option.some.inj h'
          subst hy
          obtain ⟨f1, f2, -⟩ := stable_fields fields maxD curD out hv hff
          refine ⟨?_, f2⟩
          show (filterFields .aggressive out maxD curD).map Json.obj = some (Json.obj out)
          rw [f1]
          rfl
  | null =>
      have hy : Json.null = y := Option.some.inj h
      subst hy
      exact ⟨rfl, rfl⟩
  | bool b =>
      have hy : Json.bool b = y := Option.some.inj h
      subst hy
      exact ⟨rfl, rfl⟩
  | num n =>
      have hy : Json.num n = y := Option.some.inj h
      subst hy
      exact ⟨rfl, rfl⟩
  | str s =>
      have hy : Json.str s = y := Option.some.inj h
      subst hy
      exact ⟨rfl, rfl⟩
  | arr xs =>
      have hy : Json.arr xs = y := Option.some.inj h
      subst hy
      exact ⟨rfl, hv⟩

/-- **C7 (amended).** Re-filtering an AGGRESSIVE-filtered record at AGGRESSIVE
with the same depth parameters is a no-op, under the data-model discipline
that every `visible` field in the input is a boolean (`visOk`).  Without that
hypothesis the claim is false: a numeric `visible` value is rounded by the
first pass and the rounded value can change the visibility test of the second
pass (see the counterexample). -/
theorem filter_aggressive_fixed_point (r : Json) (maxD curD : ℕ) (y : Json)
    (hv : visOk r = true)
    (h : filter_design_data .aggressive r maxD curD = some y) :
    filter_design_data .aggressive y maxD curD = some y :=
  (stable_data r maxD curD y hv h).1

/-- C7 witness: the fixed-point theorem applied to a concrete record with a
rounded numeric leaf and an invisible child. -/
theorem filter_aggressive_fixed_point_witness :
    filter_design_data .aggressive
        (Json.obj [("x", .num (.float (Rat.divInt 1 5))), ("children", .arr [])]) 2 0
      = some (Json.obj [("x", .num (.float (Rat.divInt 1 5))), ("children", .arr [])]) :=
  filter_aggressive_fixed_point
    (Json.obj [("x", .num (.float (Rat.divInt 1 4))),
               ("children", .arr [.obj [("visible", .bool false)]])])
    2 0
    (Json.obj [("x", .num (.float (Rat.divInt 1 5))), ("children", .arr [])])
    (by rfl) (by rfl)

/-- C7 counterexample: a record whose child carries a *numeric* `visible`
value (0.04, which is truthy) is filtered to a child with `visible = 0`
(rounded), and the second AGGRESSIVE pass then drops that child — the
AGGRESSIVE output is not a fixed point for every record. -/
theorem filter_aggressive_not_idempotent :
    filter_design_data .aggressive
        (Json.obj [("children",
          .arr [.obj [("visible", .num (.float (Rat.divInt 1 25)))]])]) 2 0
      = some (Json.obj [("children", .arr [.obj [("visible", .num (.int 0))]])]) ∧
    filter_design_data .aggressive
        (Json.obj [("children", .arr [.obj [("visible", .num (.int 0))]])]) 2 0
      = some (Json.obj [("children", .arr [])]) ∧
    Json.obj [("children", .arr [])]
      ≠ Json.obj [("children", .arr [.obj [("visible", .num (.int 0))]])] := by
  refine ⟨rfl, rfl, ?_⟩
  simp

end FigmaFlow
